import Mathlib

/-!
# Verification of the Alexandrian scraping pipeline

A shallow embedding of the repository's crawling / classification /
ingestion pipeline, with theorems settling the specified properties.

Modules embedded:
* `server/utils/crawler.ts` — URL normalization, link discovery, duplicate
  and file-link detection (`normalizeUrl`, `getLinksFromUrl`,
  `getDuplicateLinks`, `getNormalizedDuplicateLinks`, `getFileLinks`).
* the crawl endpoint — duplicate cleanup, file marking, and the main
  breadth-first crawl loop over the persisted `found_links` table.
* the taxonomy classification endpoint (`processFoundLinks`).
* `server/utils/scraper.ts` — the article publish-date parsing policy.
* `server/api/scrap.ts` — the batch ingestion runner.
* the single-link ingestion runner (`process-links`).

The platform `URL` class, the network, the `date-fns` parser and the
storage engine are external collaborators; they are modelled explicitly
(a hierarchical `scheme://host/path?query#frag` parser, fetch oracles,
a parse-outcome datatype, and an in-memory database with injectable
persistence failures).
-/

namespace Mystaran

/-! ## URL model

The source calls the WHATWG `new URL(url)` constructor, sets `hash` and
`search` to the empty string, and serializes back.  We model the subset
of WHATWG behaviour the crawler relies on: hierarchical
`scheme://host/path?query#frag` URLs; anything else fails to parse
(`new URL` throws and `normalizeUrl` returns the input unchanged). -/

/-- Characters allowed in a scheme before the `://` separator. -/
def schemeChar (c : Char) : Bool :=
  !(c = ':' || c = '/' || c = '?' || c = '#')

/-- Characters allowed in a host: anything up to the first path, query
or fragment delimiter. -/
def hostChar (c : Char) : Bool :=
  !(c = '/' || c = '?' || c = '#')

/-- Characters allowed in a path: anything up to the first query or
fragment delimiter. -/
def pathChar (c : Char) : Bool :=
  !(c = '?' || c = '#')

/-- A parsed hierarchical URL.  `query` keeps its leading `?` and `frag`
its leading `#` when present. -/
structure Url where
  scheme : List Char
  host : List Char
  path : List Char
  query : List Char
  frag : List Char
deriving DecidableEq, Repr

/-- Parse a character list as a hierarchical URL (model of `new URL`).
Fails (`none`) when there is no nonempty scheme followed by `://` and a
nonempty host. -/
def parseUrlChars (l : List Char) : Option Url :=
  let scheme := l.takeWhile schemeChar
  let rest := l.dropWhile schemeChar
  if scheme ≠ [] ∧ rest.take 3 = [':', '/', '/'] then
    let rest2 := rest.drop 3
    let host := rest2.takeWhile hostChar
    if host = [] then none
    else
      let rest3 := rest2.dropWhile hostChar
      let path := rest3.takeWhile pathChar
      let rest4 := rest3.dropWhile pathChar
      some ⟨scheme, host, path,
            rest4.takeWhile (fun c => !(c = '#')),
            rest4.dropWhile (fun c => !(c = '#'))⟩
  else none

/-- Serialize a URL after `url.hash = ''; url.search = ''`: the scheme,
`://`, the host, and the path (an empty path serializes as `/`, as the
WHATWG serializer does). -/
def serializeNoQueryFrag (u : Url) : List Char :=
  u.scheme ++ ':' :: '/' :: '/' :: u.host ++
    (if u.path = [] then ['/'] else u.path)

/-- `normalizeUrl` on character lists: parse, drop hash and search,
serialize; return the input unchanged if parsing fails. -/
def normalizeUrlChars (l : List Char) : List Char :=
  match parseUrlChars l with
  | none => l
  | some u => serializeNoQueryFrag u

/-- `normalizeUrl` from `server/utils/crawler.ts`: strips the fragment
and the query string, returning the input unchanged when URL parsing
fails. -/
def normalizeUrl (s : String) : String :=
  (normalizeUrlChars s.toList).asString

/-! ### takeWhile / dropWhile helper lemmas -/

theorem takeWhile_append_all {p : Char → Bool} {l r : List Char}
    (hl : ∀ c ∈ l, p c = true) (hr : ∀ x ∈ r.head?, p x = false) :
    (l ++ r).takeWhile p = l := by
  induction l with
  | nil =>
    cases r with
    | nil => rfl
    | cons x rs =>
      have hx : p x = false := hr x (by simp)
      simp [List.takeWhile_cons, hx]
  | cons a l ih =>
    have ha : p a = true := hl a (by simp)
    have hl' : ∀ c ∈ l, p c = true := fun c hc => hl c (by simp [hc])
    simp [List.takeWhile_cons, ha, ih hl']

theorem dropWhile_append_all {p : Char → Bool} {l r : List Char}
    (hl : ∀ c ∈ l, p c = true) (hr : ∀ x ∈ r.head?, p x = false) :
    (l ++ r).dropWhile p = r := by
  induction l with
  | nil =>
    cases r with
    | nil => rfl
    | cons x rs =>
      have hx : p x = false := hr x (by simp)
      simp [List.dropWhile_cons, hx]
  | cons a l ih =>
    have ha : p a = true := hl a (by simp)
    have hl' : ∀ c ∈ l, p c = true := fun c hc => hl c (by simp [hc])
    simp [List.dropWhile_cons, ha, ih hl']

theorem mem_takeWhile_sat {p : Char → Bool} {l : List Char} :
    ∀ c ∈ l.takeWhile p, p c = true := by
  intro c hc
  induction l with
  | nil => simp [List.takeWhile] at hc
  | cons a l ih =>
    rw [List.takeWhile_cons] at hc
    by_cases ha : p a = true
    · rw [if_pos ha] at hc
      rcases List.mem_cons.mp hc with h | h
      · exact h ▸ ha
      · exact ih h
    · rw [if_neg ha] at hc
      exact absurd hc (List.not_mem_nil c)

theorem head_dropWhile_fails {p : Char → Bool} {l : List Char} :
    ∀ x ∈ (l.dropWhile p).head?, p x = false := by
  intro x hx
  induction l with
  | nil => simp [List.dropWhile] at hx
  | cons a l ih =>
    rw [List.dropWhile_cons] at hx
    by_cases ha : p a = true
    · rw [if_pos ha] at hx
      exact ih hx
    · rw [if_neg ha] at hx
      simp at hx
      subst hx
      exact Bool.eq_false_iff.mpr ha

theorem takeWhile_head {p : Char → Bool} {l t : List Char} {c : Char}
    (h : l.takeWhile p = c :: t) : l.head? = some c ∧ p c = true := by
  cases l with
  | nil => simp [List.takeWhile] at h
  | cons a l =>
    rw [List.takeWhile_cons] at h
    by_cases ha : p a = true
    · rw [if_pos ha] at h
      injection h with h1 _
      subst h1
      exact ⟨rfl, ha⟩
    · rw [if_neg ha] at h
      exact absurd h (by simp)

/-! ### Well-formedness of parsed URLs, and idempotency -/

/-- The shape facts `parseUrlChars` guarantees about its output. -/
def Url.WF (u : Url) : Prop :=
  u.scheme ≠ [] ∧ (∀ c ∈ u.scheme, schemeChar c = true) ∧
  u.host ≠ [] ∧ (∀ c ∈ u.host, hostChar c = true) ∧
  (∀ c ∈ u.path, pathChar c = true) ∧
  (u.path = [] ∨ u.path.head? = some '/')

theorem parseUrlChars_wf {l : List Char} {u : Url}
    (h : parseUrlChars l = some u) : u.WF := by
  unfold parseUrlChars at h
  by_cases h1 : l.takeWhile schemeChar ≠ [] ∧
      (l.dropWhile schemeChar).take 3 = [':', '/', '/']
  · rw [if_pos h1] at h
    by_cases h2 : ((l.dropWhile schemeChar).drop 3).takeWhile hostChar = []
    · rw [if_pos h2] at h
      exact absurd h (by simp)
    · rw [if_neg h2] at h
      have := Option.some.inj h
      subst this
      refine ⟨h1.1, fun c hc => mem_takeWhile_sat c hc,
              h2, fun c hc => mem_takeWhile_sat c hc,
              fun c hc => mem_takeWhile_sat c hc, ?_⟩
      rcases hp : (((l.dropWhile schemeChar).drop 3).dropWhile hostChar).takeWhile pathChar
        with _ | ⟨pc, prest⟩
      · exact Or.inl rfl
      · right
        obtain ⟨hhd, hpc⟩ := takeWhile_head hp
        have hfail : hostChar pc = false :=
          head_dropWhile_fails pc (by rw [hhd]; simp)
        have : pc = '/' := by
          by_contra hne
          have h7 : pc = '?' ∨ pc = '#' := by
            by_contra h8
            push_neg at h8
            simp [hostChar, hne, h8.1, h8.2] at hfail
          rcases h7 with h7 | h7 <;> simp [pathChar, h7] at hpc
        simp [hp, this]
  · rw [if_neg h1] at h
    exact absurd h (by simp)

theorem parseUrlChars_serialize {u : Url} (h : u.WF) :
    parseUrlChars (serializeNoQueryFrag u) =
      some ⟨u.scheme, u.host, (if u.path = [] then ['/'] else u.path),
            [], []⟩ := by
  obtain ⟨hs, hsc, hh, hhc, hpc, hphd⟩ := h
  have colonFails : schemeChar ':' = false := by decide
  have hrest : (serializeNoQueryFrag u).dropWhile schemeChar =
      ':' :: '/' :: '/' :: (u.host ++ (if u.path = [] then ['/'] else u.path)) := by
    unfold serializeNoQueryFrag
    rw [List.append_assoc] at *
    have := dropWhile_append_all (p := schemeChar) (l := u.scheme)
      (r := ':' :: '/' :: '/' :: u.host ++ (if u.path = [] then ['/'] else u.path))
      hsc (by intro x hx; simp at hx; subst hx; decide)
    simpa using this
  have htake : (serializeNoQueryFrag u).takeWhile schemeChar = u.scheme := by
    unfold serializeNoQueryFrag
    have := takeWhile_append_all (p := schemeChar) (l := u.scheme)
      (r := ':' :: '/' :: '/' :: u.host ++ (if u.path = [] then ['/'] else u.path))
      hsc (by intro x hx; simp at hx; subst hx; decide)
    simpa using this
  have hpath' : ∀ x ∈ (if u.path = [] then ['/'] else u.path).head?,
      hostChar x = false := by
    intro x hx
    by_cases hp : u.path = []
    · simp [hp] at hx
      subst hx; decide
    · rw [if_neg hp] at hx
      rcases hphd with h | h
      · exact absurd h hp
      · rw [h] at hx
        simp at hx
        subst hx; decide
  have hhost : (':' :: '/' :: '/' ::
      (u.host ++ (if u.path = [] then ['/'] else u.path)) : List Char).drop 3 =
      u.host ++ (if u.path = [] then ['/'] else u.path) := rfl
  unfold parseUrlChars
  rw [hrest, htake]
  rw [if_pos ⟨hs, rfl⟩]
  simp only [hhost]
  rw [takeWhile_append_all hhc hpath', dropWhile_append_all hhc hpath']
  rw [if_neg hh]
  have hallpath : ∀ c ∈ (if u.path = [] then ['/'] else u.path), pathChar c = true := by
    intro c hc
    by_cases hp : u.path = []
    · rw [if_pos hp] at hc
      simp at hc; subst hc; decide
    · rw [if_neg hp] at hc
      exact hpc c hc
  have htp : (if u.path = [] then ['/'] else u.path).takeWhile pathChar =
      (if u.path = [] then ['/'] else u.path) := by
    have := takeWhile_append_all (p := pathChar)
      (l := (if u.path = [] then ['/'] else u.path)) (r := [])
      hallpath (by intro x hx; simp at hx)
    simpa using this
  have hdp : (if u.path = [] then ['/'] else u.path).dropWhile pathChar = [] := by
    have := dropWhile_append_all (p := pathChar)
      (l := (if u.path = [] then ['/'] else u.path)) (r := [])
      hallpath (by intro x hx; simp at hx)
    simpa using this
  rw [htp, hdp]
  rfl

theorem normalizeUrlChars_idem (l : List Char) :
    normalizeUrlChars (normalizeUrlChars l) = normalizeUrlChars l := by
  unfold normalizeUrlChars
  rcases hp : parseUrlChars l with _ | u
  · rw [hp]
  · have hwf := parseUrlChars_wf hp
    rw [parseUrlChars_serialize hwf]
    unfold serializeNoQueryFrag
    simp only
    have hne : (if u.path = [] then ['/'] else u.path) ≠ [] := by
      by_cases h : u.path = [] <;> simp [h]
    rw [if_neg hne]

theorem normalizeUrl_idem (s : String) :
    normalizeUrl (normalizeUrl s) = normalizeUrl s := by
  show (normalizeUrlChars (normalizeUrlChars s.toList)).asString = _
  exact congrArg List.asString (normalizeUrlChars_idem s.toList)

/-! ## Link discovery (`getLinksFromUrl`) -/

/-- A fetch oracle: the list of `a[href]` attribute values found in the
fetched document, or `none` for a transport failure (the catch branch). -/
def Fetch : Type := String → Option (List String)

/-- JS `String.prototype.startsWith`. -/
def strStartsWith (s pre : String) : Bool :=
  pre.toList.isPrefixOf s.toList

/-- The origin of a URL, as the WHATWG `url.origin` getter renders it
for hierarchical URLs: scheme, `://`, host. -/
def Url.origin (u : Url) : List Char :=
  u.scheme ++ ':' :: '/' :: '/' :: u.host

/-- `new URL('https://thealexandrian.net/').origin` from
`server/utils/crawler.ts`. -/
def baseDomain : String :=
  match parseUrlChars "https://thealexandrian.net/".toList with
  | some u => u.origin.asString
  | none => ""

/-- The anchor-filtering loop of `getLinksFromUrl`: normalize each href,
skip ones already collected, external ones, and already-visited ones. -/
def collectLinks (visited : List String) (foundLinks : List String) :
    List String → List String
  | [] => foundLinks
  | href :: rest =>
    if href = "" then collectLinks visited foundLinks rest
    else
      let absoluteUrl := normalizeUrl href
      if foundLinks.contains absoluteUrl then
        collectLinks visited foundLinks rest
      else if !(strStartsWith absoluteUrl baseDomain) then
        collectLinks visited foundLinks rest
      else if visited.contains absoluteUrl then
        collectLinks visited foundLinks rest
      else
        collectLinks visited (foundLinks ++ [absoluteUrl]) rest

/-- `getLinksFromUrl` from `server/utils/crawler.ts`.  Returns the
discovered links (`none` encodes the `null` returned on fetch failure)
paired with the number of fetches performed. -/
def getLinksFromUrl (fetch : Fetch) (currentUrl : String)
    (visited : List String) : Option (List String) × Nat :=
  if currentUrl = "" ∨ visited.contains currentUrl then (some [], 0)
  else
    match fetch currentUrl with
    | none => (none, 1)
    | some anchors => (some (collectLinks visited [] anchors), 1)

/-- The property every collected link satisfies. -/
def GoodLink (visited : List String) (l : String) : Prop :=
  normalizeUrl l = l ∧ strStartsWith l baseDomain = true ∧
    ¬ visited.contains l = true

theorem collectLinks_inv (visited : List String) (rest : List String)
    (acc : List String)
    (hacc : ∀ l ∈ acc, GoodLink visited l) (hnd : acc.Nodup) :
    (∀ l ∈ collectLinks visited acc rest, GoodLink visited l) ∧
      (collectLinks visited acc rest).Nodup := by
  induction rest generalizing acc with
  | nil => exact ⟨hacc, hnd⟩
  | cons href rest ih =>
    unfold collectLinks
    by_cases h0 : href = ""
    · rw [if_pos h0]; exact ih acc hacc hnd
    rw [if_neg h0]
    simp only
    by_cases h1 : acc.contains (normalizeUrl href)
    · rw [if_pos h1]; exact ih acc hacc hnd
    rw [if_neg h1]
    by_cases h2 : !(strStartsWith (normalizeUrl href) baseDomain)
    · rw [if_pos h2]; exact ih acc hacc hnd
    rw [if_neg h2]
    by_cases h3 : visited.contains (normalizeUrl href)
    · rw [if_pos h3]; exact ih acc hacc hnd
    rw [if_neg h3]
    refine ih (acc ++ [normalizeUrl href]) ?_ ?_
    · intro l hl
      rcases List.mem_append.mp hl with h | h
      · exact hacc l h
      · have : l = normalizeUrl href := by simpa using h
        subst this
        refine ⟨normalizeUrl_idem href, ?_, ?_⟩
        · simpa using h2
        · simpa using h3
    · rw [List.nodup_append]
      refine ⟨hnd, List.nodup_singleton _, ?_⟩
      intro a ha hb
      have : a = normalizeUrl href := by simpa using hb
      subst this
      exact h1 (List.elem_iff.mpr ha)

/-- A concrete fetch oracle used to witness the link-discovery claims. -/
def sampleFetch : Fetch := fun _ =>
  some ["https://thealexandrian.net/a?x=1#top",
        "https://thealexandrian.net/a",
        "https://other.example/b",
        "mailto:someone"]

/-- C9: `normalizeUrl` never throws (it is total), returns its input
unchanged when the input is not a parseable URL, removes the fragment
and query string when it is parseable, and is idempotent. -/
theorem normalizeUrl_c9 (s : String) :
    (parseUrlChars s.toList = none → normalizeUrl s = s) ∧
    (∀ u, parseUrlChars s.toList = some u →
      parseUrlChars (normalizeUrl s).toList =
        some ⟨u.scheme, u.host, (if u.path = [] then ['/'] else u.path),
              [], []⟩) ∧
    normalizeUrl (normalizeUrl s) = normalizeUrl s := by
  refine ⟨?_, ?_, normalizeUrl_idem s⟩
  · intro h
    show (normalizeUrlChars s.toList).asString = s
    unfold normalizeUrlChars
    rw [h]
    exact String.asString_toList s
  · intro u hu
    show parseUrlChars ((normalizeUrlChars s.toList).asString).toList = _
    have : ((normalizeUrlChars s.toList).asString).toList =
        normalizeUrlChars s.toList := rfl
    rw [this]
    unfold normalizeUrlChars
    rw [hu]
    exact parseUrlChars_serialize (parseUrlChars_wf hu)

/-- Witness for C9 at concrete inputs: a malformed URL is returned
unchanged, and a URL with query and fragment is normalized and stays
fixed under a second normalization. -/
theorem normalizeUrl_c9_witness :
    normalizeUrl "not a url" = "not a url" ∧
    normalizeUrl (normalizeUrl "https://thealexandrian.net/page?foo=bar#sec") =
      normalizeUrl "https://thealexandrian.net/page?foo=bar#sec" ∧
    parseUrlChars
        (normalizeUrl "https://thealexandrian.net/page?foo=bar#sec").toList =
      some ⟨"https".toList, "thealexandrian.net".toList, "/page".toList,
            [], []⟩ :=
  ⟨(normalizeUrl_c9 "not a url").1 (by decide),
   (normalizeUrl_c9 "https://thealexandrian.net/page?foo=bar#sec").2.2,
   (normalizeUrl_c9 "https://thealexandrian.net/page?foo=bar#sec").2.1
     ⟨"https".toList, "thealexandrian.net".toList, "/page".toList,
      "?foo=bar".toList, "#sec".toList⟩ (by decide)⟩

/-- C10: whenever `getLinksFromUrl` returns a non-null list, every
element is a normalized URL on the fixed base origin that is not in the
visited set (`GoodLink`), the elements are pairwise distinct, and an
empty or already-visited `currentUrl` yields the empty list with no
fetch performed. -/
theorem getLinksFromUrl_c10 (fetch : Fetch) (currentUrl : String)
    (visited : List String) :
    (∀ links, (getLinksFromUrl fetch currentUrl visited).1 = some links →
      (∀ l ∈ links, GoodLink visited l) ∧ links.Nodup) ∧
    ((currentUrl = "" ∨ visited.contains currentUrl = true) →
      getLinksFromUrl fetch currentUrl visited = (some [], 0)) := by
  constructor
  · intro links hlinks
    unfold getLinksFromUrl at hlinks
    by_cases hg : currentUrl = "" ∨ (visited.contains currentUrl : Prop)
    · rw [if_pos hg] at hlinks
      simp at hlinks
      subst hlinks
      exact ⟨by intro l hl; exact absurd hl (List.not_mem_nil l),
             List.nodup_nil⟩
    · rw [if_neg hg] at hlinks
      rcases hf : fetch currentUrl with _ | anchors
      · rw [hf] at hlinks
        exact absurd hlinks (by simp)
      · rw [hf] at hlinks
        simp at hlinks
        subst hlinks
        exact collectLinks_inv visited anchors []
          (by intro l hl; exact absurd hl (List.not_mem_nil l))
          List.nodup_nil
  · intro hg
    unfold getLinksFromUrl
    rw [if_pos (by rcases hg with h | h
                   · exact Or.inl h
                   · exact Or.inr h)]

/-- Witness for C10 at concrete inputs: the oracle `sampleFetch` yields
exactly one good link, and an empty `currentUrl` performs no fetch. -/
theorem getLinksFromUrl_c10_witness :
    GoodLink ["https://thealexandrian.net/v"] "https://thealexandrian.net/a" ∧
    getLinksFromUrl sampleFetch "" ["https://thealexandrian.net/v"] =
      (some [], 0) :=
  ⟨((getLinksFromUrl_c10 sampleFetch "https://thealexandrian.net/start"
      ["https://thealexandrian.net/v"]).1
      ["https://thealexandrian.net/a"] (by decide)).1
      "https://thealexandrian.net/a" (by decide),
   (getLinksFromUrl_c10 sampleFetch "" ["https://thealexandrian.net/v"]).2
      (Or.inl rfl)⟩

/-! ## Persisted link records and the `CrawlStatus` enum -/

namespace CrawlStatus

/-- Discovered but not yet crawled. -/
def Pending : Nat := 0
/-- Successfully crawled and links extracted. -/
def Visited : Nat := 1
/-- Failed to fetch or parse. -/
def Error : Nat := 2
/-- Identified as a file resource (not HTML). -/
def File : Nat := 4
/-- Identified as a tag listing page. -/
def Tag : Nat := 5
/-- Identified as a category listing page. -/
def Category : Nat := 6
/-- Identified as an article page (ready for scraping). -/
def Article : Nat := 7

end CrawlStatus

/-- A row of the `found_links` table (the `LinkRecord` interface plus
the `processed_at` / `created_at` columns the endpoints use). -/
structure FoundLink where
  id : String
  href : String
  status : Nat
  processedAt : Option Nat
  createdAt : Nat
deriving DecidableEq, Repr

/-- File extensions identifying non-HTML resources (`fileExts`). -/
def fileExts : List String :=
  [".jpg", ".jpeg", ".png", ".gif", ".svg", ".pdf", ".mp3", ".mp4",
   ".zip", ".psd"]

/-- JS `String.prototype.endsWith`. -/
def strEndsWith (s suf : String) : Bool :=
  suf.toList.isSuffixOf s.toList

/-- `fileExts.some(ext => url.endsWith(ext))`, the file test used by
`getFileLinks` and the crawl loop. -/
def isFileUrl (href : String) : Bool :=
  fileExts.any (fun ext => strEndsWith href ext)

/-- Number of rows of `links` carrying the href `h`. -/
def hrefCount (links : List FoundLink) (h : String) : Nat :=
  (links.filter (fun r => r.href == h)).length

/-- `getDuplicateLinks` from `server/utils/crawler.ts`: every record
whose href occurs more than once (all copies are returned). -/
def getDuplicateLinks (links : List FoundLink) : List FoundLink :=
  links.filter (fun r => decide (1 < hrefCount links r.href))

/-- `getNormalizedDuplicateLinks`: every record whose href changes
under normalization. -/
def getNormalizedDuplicateLinks (links : List FoundLink) : List FoundLink :=
  links.filter (fun r => !(normalizeUrl r.href == r.href))

/-- `getFileLinks`: every record whose href ends in a known file
extension. -/
def getFileLinks (links : List FoundLink) : List FoundLink :=
  links.filter (fun r => isFileUrl r.href)

/-! ## The crawl endpoint's cleanup pass (phases 2 and 3)

Phase 2 deletes, by id, every record in
`getDuplicateLinks(existing) ∪ getNormalizedDuplicateLinks(duplicates)`
— note the second call runs over the duplicates only, not over all of
`existing`.  Phase 3 forces the status of every file link (computed
from the same `existing` snapshot) to `File`. -/

def cleanupPass (existing : List FoundLink) : List FoundLink :=
  let duplicates := getDuplicateLinks existing
  let normalizedDuplicates := getNormalizedDuplicateLinks duplicates
  let toDeleteIds := (duplicates ++ normalizedDuplicates).map (fun r => r.id)
  let afterDelete := existing.filter (fun r => !(toDeleteIds.contains r.id))
  let fileIds := (getFileLinks existing).map (fun r => r.id)
  afterDelete.map (fun r =>
    if fileIds.contains r.id then { r with status := CrawlStatus.File } else r)

/-! ### C7: properties of the cleanup pass -/

/-- A state with an exactly-duplicated href and an unnormalized href,
used to test the cleanup pass. -/
def dupState : List FoundLink :=
  [⟨"id1", "https://thealexandrian.net/x", 0, none, 0⟩,
   ⟨"id2", "https://thealexandrian.net/x", 0, none, 0⟩,
   ⟨"id3", "https://thealexandrian.net/p?q=1", 0, none, 0⟩]

/-- Counterexample to C7: on `dupState` the pass deletes BOTH copies of
the duplicated href (leaving no surviving row for it) and keeps the
unnormalized row `id3` (its href still differs from its normalized
form), because the normalized-duplicate scan runs only over the exact
duplicates. -/
theorem cleanupPass_c7_counterexample :
    cleanupPass dupState =
      [⟨"id3", "https://thealexandrian.net/p?q=1", 0, none, 0⟩] ∧
    ¬ normalizeUrl "https://thealexandrian.net/p?q=1" =
        "https://thealexandrian.net/p?q=1" ∧
    hrefCount dupState "https://thealexandrian.net/x" = 2 ∧
    hrefCount (cleanupPass dupState) "https://thealexandrian.net/x" = 0 := by
  refine ⟨by decide, by decide, by decide, by decide⟩

theorem hrefCount_map_href_preserving (l : List FoundLink)
    (f : FoundLink → FoundLink) (hf : ∀ r, (f r).href = r.href)
    (h : String) : hrefCount (l.map f) h = hrefCount l h := by
  unfold hrefCount
  induction l with
  | nil => rfl
  | cons a t ih =>
    simp only [List.map_cons, List.filter_cons, hf a]
    by_cases hh : (a.href == h) = true
    · simp only [hh, if_pos trivial, List.length_cons, ih]
    · simp only [Bool.not_eq_true] at hh
      simp only [hh, Bool.false_eq_true, if_neg, ih]
      simp [hh, ih]

theorem cleanupPass_mem (existing : List FoundLink) :
    ∀ r ∈ cleanupPass existing, ∃ r' ∈ existing,
      r'.id = r.id ∧ r'.href = r.href := by
  intro r hr
  unfold cleanupPass at hr
  obtain ⟨r0, hr0, hfr0⟩ := List.mem_map.mp hr
  have hr0' : r0 ∈ existing := (List.mem_filter.mp hr0).1
  refine ⟨r0, hr0', ?_, ?_⟩
  · by_cases hc : (((getFileLinks existing).map (fun r => r.id)).contains r0.id) = true
    · rw [if_pos hc] at hfr0
      rw [← hfr0]
    · rw [if_neg (by simpa using hc)] at hfr0
      rw [hfr0]
  · by_cases hc : (((getFileLinks existing).map (fun r => r.id)).contains r0.id) = true
    · rw [if_pos hc] at hfr0
      rw [← hfr0]
    · rw [if_neg (by simpa using hc)] at hfr0
      rw [hfr0]

theorem cleanupPass_file_by_id (existing : List FoundLink) :
    ∀ r ∈ cleanupPass existing,
      ((getFileLinks existing).map (fun q => q.id)).contains r.id = true →
      r.status = CrawlStatus.File := by
  intro r hr hid
  unfold cleanupPass at hr
  obtain ⟨r0, hr0, hfr0⟩ := List.mem_map.mp hr
  by_cases hc : (((getFileLinks existing).map (fun q => q.id)).contains r0.id) = true
  · rw [if_pos hc] at hfr0
    rw [← hfr0]
  · rw [if_neg (by simpa using hc)] at hfr0
    subst hfr0
    exact absurd hid (by simpa using hc)

theorem cleanupPass_href_count (existing : List FoundLink) (h : String) :
    hrefCount (cleanupPass existing) h ≤ 1 := by
  unfold cleanupPass
  rw [hrefCount_map_href_preserving]
  case hf =>
    intro r
    by_cases hc : (((getFileLinks existing).map (fun q => q.id)).contains r.id) = true
    · rw [if_pos hc]
    · rw [if_neg (by simpa using hc)]
  set dups := getDuplicateLinks existing with hdups
  set dels := (dups ++ getNormalizedDuplicateLinks dups).map (fun r => r.id)
    with hdels
  set afterDelete := existing.filter (fun r => !(dels.contains r.id))
    with hafter
  rcases hfe : afterDelete.filter (fun r => r.href == h) with _ | ⟨r, t⟩
  · unfold hrefCount
    rw [hfe]
    simp
  · have hrmem : r ∈ afterDelete.filter (fun r => r.href == h) := by
      rw [hfe]; simp
    have hr1 := List.mem_filter.mp hrmem
    have hr2 := List.mem_filter.mp hr1.1
    have hrh : r.href = h := by simpa using hr1.2
    have hnotdup : ¬ r ∈ dups := by
      intro hmem
      have : dels.contains r.id = true := by
        rw [hdels]
        simp only [List.contains_eq_any_beq, List.any_eq_true]
        exact ⟨r.id, List.mem_map.mpr ⟨r, List.mem_append.mpr (Or.inl hmem), rfl⟩,
               by simp⟩
      rw [this] at hr2
      simpa using hr2.2
    have hcount1 : hrefCount existing r.href ≤ 1 := by
      by_contra hgt
      push_neg at hgt
      exact hnotdup (by
        rw [hdups]
        unfold getDuplicateLinks
        exact List.mem_filter.mpr ⟨hr2.1, by simpa using hgt⟩)
    have hsub : List.Sublist (afterDelete.filter (fun r => r.href == h))
        (existing.filter (fun r => r.href == h)) :=
      List.Sublist.filter _ (List.filter_sublist existing)
    have hle := hsub.length_le
    unfold hrefCount at hcount1 ⊢
    rw [hrh] at hcount1
    exact le_trans hle hcount1

theorem cleanupPass_eq (existing : List FoundLink) :
    cleanupPass existing =
      (existing.filter (fun r =>
        !((((getDuplicateLinks existing) ++
            getNormalizedDuplicateLinks (getDuplicateLinks existing)).map
              (fun q => q.id)).contains r.id))).map
        (fun r =>
          if ((getFileLinks existing).map (fun q => q.id)).contains r.id
          then { r with status := CrawlStatus.File } else r) := rfl

theorem cleanupPass_file_status (existing : List FoundLink) :
    ∀ r ∈ cleanupPass existing, isFileUrl r.href = true →
      r.status = CrawlStatus.File := by
  intro r hr hfile
  obtain ⟨r', hr'mem, hid, hhref⟩ := cleanupPass_mem existing r hr
  have hr'file : r' ∈ getFileLinks existing :=
    List.mem_filter.mpr ⟨hr'mem, by rw [hhref]; exact hfile⟩
  refine cleanupPass_file_by_id existing r hr ?_
  exact List.elem_iff.mpr (hid ▸ List.mem_map.mpr ⟨r', hr'file, rfl⟩)

theorem cleanupPass_idem (existing : List FoundLink) :
    cleanupPass (cleanupPass existing) = cleanupPass existing := by
  have hdup : getDuplicateLinks (cleanupPass existing) = [] := by
    unfold getDuplicateLinks
    refine List.filter_eq_nil_iff.mpr ?_
    intro a _
    simpa using Nat.not_lt.mpr (cleanupPass_href_count existing a.href)
  rw [cleanupPass_eq (cleanupPass existing), hdup]
  have hnorm : getNormalizedDuplicateLinks ([] : List FoundLink) = [] := rfl
  rw [hnorm]
  have hfilter : (cleanupPass existing).filter
      (fun r => !(((([] : List FoundLink) ++ ([] : List FoundLink)).map
        (fun q => q.id)).contains r.id)) = cleanupPass existing := by
    refine List.filter_eq_self.mpr ?_
    intro a _
    rfl
  rw [hfilter]
  have hmap : ∀ r ∈ cleanupPass existing,
      (if ((getFileLinks (cleanupPass existing)).map
            (fun q => q.id)).contains r.id
       then { r with status := CrawlStatus.File } else r) = r := by
    intro r hr
    by_cases hc : (((getFileLinks (cleanupPass existing)).map
        (fun q => q.id)).contains r.id) = true
    · rw [if_pos hc]
      have hex : ∃ q : FoundLink,
          q ∈ getFileLinks (cleanupPass existing) ∧ q.id = r.id := by
        have hmem := List.elem_iff.mp hc
        obtain ⟨q, hq, hqid⟩ := List.mem_map.mp hmem
        exact ⟨q, hq, hqid⟩
      obtain ⟨q, hq, hqid⟩ := hex
      have hqmem := List.mem_filter.mp hq
      obtain ⟨q', hq'mem, hq'id, hq'href⟩ :=
        cleanupPass_mem existing q hqmem.1
      have hq'file : q' ∈ getFileLinks existing :=
        List.mem_filter.mpr ⟨hq'mem, by rw [hq'href]; exact hqmem.2⟩
      have hstat : r.status = CrawlStatus.File := by
        refine cleanupPass_file_by_id existing r hr ?_
        refine List.elem_iff.mpr ?_
        have : q'.id = r.id := by rw [hq'id, hqid]
        exact this ▸ List.mem_map.mpr ⟨q', hq'file, rfl⟩
      obtain ⟨i, h0, s0, p0, c0⟩ := r
      simp only at hstat
      rw [hstat]
    · rw [if_neg (by simpa using hc)]
  calc (cleanupPass existing).map
        (fun r => if ((getFileLinks (cleanupPass existing)).map
            (fun q => q.id)).contains r.id
          then { r with status := CrawlStatus.File } else r)
      = (cleanupPass existing).map id := List.map_congr_left hmap
    _ = cleanupPass existing := List.map_id _

/-- C7 (amended): after the cleanup pass no href occurs in more than
one remaining row (a duplicated href loses ALL of its rows rather than
keeping one), every remaining row whose href ends in a known file
extension has status `File`, and the pass is idempotent.  Rows whose
href merely differs from its normalized form survive unless their href
was exactly duplicated. -/
theorem cleanupPass_c7_amended (existing : List FoundLink) :
    (∀ h, hrefCount (cleanupPass existing) h ≤ 1) ∧
    (∀ r ∈ cleanupPass existing, isFileUrl r.href = true →
      r.status = CrawlStatus.File) ∧
    cleanupPass (cleanupPass existing) = cleanupPass existing :=
  ⟨cleanupPass_href_count existing, cleanupPass_file_status existing,
   cleanupPass_idem existing⟩

/-- Witness for the amended C7 at a concrete state containing a pending
file link: its surviving row is forced to `File` status, and the pass
is idempotent there. -/
theorem cleanupPass_c7_amended_witness :
    (⟨"id1", "https://thealexandrian.net/a.jpg", 4, none, 0⟩ : FoundLink) ∈
        cleanupPass [⟨"id1", "https://thealexandrian.net/a.jpg", 0, none, 0⟩] ∧
    (⟨"id1", "https://thealexandrian.net/a.jpg", 4, none, 0⟩ : FoundLink).status =
      CrawlStatus.File ∧
    cleanupPass (cleanupPass
        [⟨"id1", "https://thealexandrian.net/a.jpg", 0, none, 0⟩]) =
      cleanupPass [⟨"id1", "https://thealexandrian.net/a.jpg", 0, none, 0⟩] :=
  ⟨by decide,
   (cleanupPass_c7_amended
      [⟨"id1", "https://thealexandrian.net/a.jpg", 0, none, 0⟩]).2.1
      ⟨"id1", "https://thealexandrian.net/a.jpg", 4, none, 0⟩
      (by decide) (by decide),
   (cleanupPass_c7_amended
      [⟨"id1", "https://thealexandrian.net/a.jpg", 0, none, 0⟩]).2.2⟩

/-! ## The crawl endpoint (main loop)

Phases: load state, cleanup (phases 2–3 above), build the
visited / toVisit queues from the pre-cleanup snapshot (the skip guard
compares the collected ids of updated file links against hrefs), seed
the root if needed, then the main loop.  JS `Set` is modelled as an
insertion-ordered duplicate-free list. -/

/-- Add to a JS `Set` (insertion order, no duplicates). -/
def setAdd (s : List String) (x : String) : List String :=
  if s.contains x then s else s ++ [x]

/-- `update({status}).eq('href', ...)` on the `found_links` table. -/
def dbSetStatusByHref (db : List FoundLink) (href : String) (st : Nat) :
    List FoundLink :=
  db.map (fun r => if r.href == href then { r with status := st } else r)

/-- A freshly inserted Pending row for a newly discovered href (the id
generation is external; modelled as a tagged copy of the href). -/
def newPendingRow (href : String) : FoundLink :=
  ⟨"gen:" ++ href, href, CrawlStatus.Pending, none, 0⟩

/-- Phase 4: rebuild the in-memory queues from the persisted snapshot.
`updatedIds` holds the ids returned by the phase-3 update promises; the
source compares them against `rec.href`. -/
def buildQueues (existing : List FoundLink) (updatedIds : List String) :
    List String × List String :=
  existing.foldl (fun acc rec =>
    if updatedIds.contains rec.href then acc
    else if rec.status == CrawlStatus.Visited then (setAdd acc.1 rec.href, acc.2)
    else if rec.status == CrawlStatus.Pending then (acc.1, setAdd acc.2 rec.href)
    else acc) ([], [])

/-- State of the main crawl loop: the `toVisit` queue, the `visited`
set, and the persisted `found_links` table. -/
structure CrawlState where
  toVisit : List String
  visited : List String
  db : List FoundLink
deriving DecidableEq, Repr

/-- Result of a crawl-endpoint invocation. -/
inductive CrawlOutcome where
  | noData
  | finished (links : List String) (db : List FoundLink)
  | outOfFuel
deriving DecidableEq, Repr

/-- The phase-6 `while (toVisit.size > 0)` loop, with explicit fuel;
`none` means the fuel ran out before the loop exited.  Note that in the
file branch the current URL is NOT removed from `toVisit` before
`continue`. -/
def crawlLoop (fetch : Fetch) : Nat → CrawlState →
    Option (List String × List FoundLink)
  | 0, _ => none
  | Nat.succ fuel, s =>
    match s.toVisit with
    | [] => some (s.visited, s.db)
    | currentUrl :: _ =>
      if isFileUrl currentUrl then
        crawlLoop fetch fuel
          { s with db := dbSetStatusByHref s.db currentUrl CrawlStatus.File }
      else
        match (getLinksFromUrl fetch currentUrl s.visited).1 with
        | none =>
          crawlLoop fetch fuel
            { toVisit := s.toVisit.erase currentUrl,
              visited := setAdd s.visited currentUrl,
              db := dbSetStatusByHref s.db currentUrl CrawlStatus.Error }
        | some foundLinks =>
          let visited1 := setAdd s.visited currentUrl
          let toVisit1 := s.toVisit.erase currentUrl
          let db1 := dbSetStatusByHref s.db currentUrl CrawlStatus.Visited
          let added := foundLinks.foldl
            (fun (acc : List String × List String) link =>
              if !(visited1.contains link) && !(acc.1.contains link)
              then (acc.1 ++ [link], acc.2 ++ [link]) else acc)
            (toVisit1, [])
          crawlLoop fetch fuel
            { toVisit := added.1, visited := visited1,
              db := db1 ++ added.2.map newPendingRow }

/-- The crawl endpoint: phases 1–6. -/
def crawlEndpoint (fetch : Fetch) (fuel : Nat)
    (existing : List FoundLink) : CrawlOutcome :=
  if existing = [] then CrawlOutcome.noData
  else
    let db1 := cleanupPass existing
    let updatedIds := (getFileLinks existing).map (fun r => r.id)
    let queues := buildQueues existing updatedIds
    let toVisit0 :=
      if queues.2 = [] ∧
          ¬ queues.1.contains "https://thealexandrian.net/" = true
      then ["https://thealexandrian.net/"] else queues.2
    match crawlLoop fetch fuel ⟨toVisit0, queues.1, db1⟩ with
    | none => CrawlOutcome.outOfFuel
    | some (links, db2) => CrawlOutcome.finished links db2

/-- A persisted state with one Pending link whose href ends in a known
file extension. -/
def jpgPendingState : List FoundLink :=
  [⟨"uuid-1", "https://thealexandrian.net/pic.jpg",
    CrawlStatus.Pending, none, 0⟩]

/-- C2 (refuting evidence): on a persisted state with one Pending link
and zero Visited links whose href ends in `.jpg`, the crawl endpoint
never terminates, for every fetch oracle and every amount of fuel: the
file branch of the main loop marks the link `File` but never removes it
from `toVisit`, because the phase-4 skip guard compares update-promise
ids against hrefs and therefore queues the file link. -/
theorem crawl_c2_nonterminating (fetch : Fetch) (fuel : Nat) :
    crawlEndpoint fetch fuel jpgPendingState = CrawlOutcome.outOfFuel := by
  have hloop : ∀ n, crawlLoop fetch n
      ⟨["https://thealexandrian.net/pic.jpg"], [],
       [⟨"uuid-1", "https://thealexandrian.net/pic.jpg",
         CrawlStatus.File, none, 0⟩]⟩ = none := by
    intro n
    induction n with
    | zero => rfl
    | succ m ih => exact ih
  have h0 : crawlEndpoint fetch fuel jpgPendingState =
      (match crawlLoop fetch fuel
          ⟨["https://thealexandrian.net/pic.jpg"], [],
           [⟨"uuid-1", "https://thealexandrian.net/pic.jpg",
             CrawlStatus.File, none, 0⟩]⟩ with
       | none => CrawlOutcome.outOfFuel
       | some (links, db2) => CrawlOutcome.finished links db2) := rfl
  rw [h0, hloop fuel]

/-! ## The relational store

Logical schema from the spec and `database.types`: `found_links`,
`articles`, `tags`, `categories`, the two junction tables and
`comments`.  `nextId` models the id generator of the storage engine.
Fields not read or written by the embedded endpoints (e.g. enhancement
columns) are omitted. -/

structure ArticleRow where
  id : Nat
  oldId : Int
  title : String
  content : String
  link : String
  images : List String
  createdAt : String
deriving DecidableEq, Repr

structure TagRow where
  id : Nat
  name : String
  slug : Option String
  description : String
deriving DecidableEq, Repr

structure CategoryRow where
  id : Nat
  name : String
  description : String
deriving DecidableEq, Repr

structure ArticleTagRow where
  articleId : Nat
  tagId : Nat
deriving DecidableEq, Repr

structure ArticleCategoryRow where
  articleId : Nat
  categoryId : Nat
deriving DecidableEq, Repr

structure CommentRow where
  oldId : Int
  author : String
  content : List String
  createdAt : String
  articleId : Nat
deriving DecidableEq, Repr

structure Db where
  foundLinks : List FoundLink
  articles : List ArticleRow
  tags : List TagRow
  categories : List CategoryRow
  articleTags : List ArticleTagRow
  articleCategories : List ArticleCategoryRow
  comments : List CommentRow
  nextId : Nat
deriving DecidableEq, Repr

/-! ## The taxonomy classification endpoint (`processFoundLinks`) -/

/-- The regex `/\/tag\/([^\/]+)(?:\/page\/\d+)?/` (and its category
twin) applied by `String.prototype.match`: the capture group of the
leftmost occurrence of the marker followed by at least one
non-slash character. -/
def slugAfterMarker (marker : List Char) : List Char → Option (List Char)
  | [] => none
  | c :: rest =>
    if marker.isPrefixOf (c :: rest) then
      let slug := ((c :: rest).drop marker.length).takeWhile
        (fun ch => !(ch = '/'))
      if slug = [] then slugAfterMarker marker rest else some slug
    else slugAfterMarker marker rest

/-- JS regex `\w`: ASCII letters, digits, underscore. -/
def isWordChar (c : Char) : Bool :=
  c.isAlphanum || c = '_'

/-- `name.replace(/\b\w/g, c => c.toUpperCase())`: uppercase every word
character that starts a word.  The flag tracks whether the previous
character was a word character. -/
def titleCaseAux (prevWord : Bool) : List Char → List Char
  | [] => []
  | c :: rest =>
    (if !prevWord && isWordChar c then c.toUpper else c) ::
      titleCaseAux (isWordChar c) rest

/-- Slug to display name: `slug.replace(/[-]/g, ' ')` (every dash
becomes a space) then title-casing. -/
def prettyName (slug : String) : String :=
  (titleCaseAux false
    (slug.toList.map (fun c => if c = '-' then ' ' else c))).asString

/-- The two taxonomy tables the classifier writes to. -/
inductive TaxTable
  | tags
  | categories
deriving DecidableEq, Repr

/-- `insert(row)` into `tags` or `categories`: on an existing unique
name the storage engine reports a duplicate-key error, which the
classifier only logs — the insert is a silent no-op and the existing
row is never updated. -/
def insertTaxRow (db : Db) (table : TaxTable) (name : String) : Db :=
  match table with
  | .tags =>
    if db.tags.any (fun t => t.name == name) then db
    else { db with tags := db.tags ++ [⟨db.nextId, name, none, ""⟩],
                   nextId := db.nextId + 1 }
  | .categories =>
    if db.categories.any (fun t => t.name == name) then db
    else { db with categories := db.categories ++ [⟨db.nextId, name, ""⟩],
                   nextId := db.nextId + 1 }

/-- `update({status: Error}).eq('id', linkId)` on `found_links`. -/
def setLinkError (db : Db) (linkId : String) : Db :=
  { db with foundLinks := db.foundLinks.map (fun r =>
      if r.id == linkId then { r with status := CrawlStatus.Error } else r) }

/-- One iteration of the classifier loop for one link. -/
def classifyStep (table : TaxTable) (marker : String) (db : Db)
    (link : FoundLink) : Db :=
  match slugAfterMarker marker.toList link.href.toList with
  | none => setLinkError db link.id
  | some slug => insertTaxRow db table (prettyName slug.asString)

/-- The `handle(statusValue, table, regex)` helper: select all links
with the given status, then process each in order. -/
def classifyHandle (db : Db) (statusValue : Nat) (table : TaxTable)
    (marker : String) : Db :=
  (db.foundLinks.filter (fun l => l.status == statusValue)).foldl
    (classifyStep table marker) db

/-- The classification endpoint: tags (status 5) then categories
(status 6). -/
def linkProcessEndpoint (db : Db) : Db :=
  classifyHandle (classifyHandle db CrawlStatus.Tag TaxTable.tags "/tag/")
    CrawlStatus.Category TaxTable.categories "/category/"

/-! ## The article publish-date policy of `scrapeArticles` (C6) -/

/-- Outcome of the external `date-fns` `parse` call on a raw date
string: a successfully parsed date (rendered by `format` as
`yyyy-MM-dd`), an Invalid Date (`getTime()` is `NaN` — `parse` signals
a mismatched string this way rather than by throwing), or a thrown
exception. -/
inductive DateParseOutcome where
  | ok (formatted : String)
  | invalid
  | threw
deriving DecidableEq, Repr

/-- The article `created_at` computation of `scrapeArticles`:
`created_at` starts as the empty string, a valid parse overwrites it
with the formatted date, and only the catch branch — reached when
`parse` throws, not when it returns an Invalid Date — falls back to
the current date. -/
def articleCreatedAt (outcome : DateParseOutcome) (today : String) :
    String :=
  match outcome with
  | .ok f => f
  | .invalid => ""
  | .threw => today

/-- The comment `created_at` computation of `scrapeArticles`: the
fallback to the current date is the initial value, so both failure
modes keep it. -/
def commentCreatedAt (outcome : DateParseOutcome) (today : String) :
    String :=
  match outcome with
  | .ok f => f
  | .invalid => today
  | .threw => today

/-- C6 (refuting evidence): when the publish-date string does not parse,
`date-fns` returns an Invalid Date without throwing, so the guarded
assignment is skipped, the catch branch never runs, and the returned
article's `created_at` is the empty string rather than the current
date.  The comment-date path, by contrast, does fall back to today. -/
theorem articleCreatedAt_c6 :
    articleCreatedAt DateParseOutcome.invalid "2026-10-11" = "" ∧
    ¬ articleCreatedAt DateParseOutcome.invalid "2026-10-11" = "2026-10-11" ∧
    articleCreatedAt DateParseOutcome.threw "2026-10-11" = "2026-10-11" ∧
    commentCreatedAt DateParseOutcome.invalid "2026-10-11" = "2026-10-11" := by
  refine ⟨rfl, by decide, rfl, rfl⟩

/-! ### C8: classifier lemmas -/

/-- The table written by the classifier has a row with the given
unique name. -/
def taxHasName (db : Db) (table : TaxTable) (n : String) : Prop :=
  match table with
  | .tags => ∃ t ∈ db.tags, t.name = n
  | .categories => ∃ c ∈ db.categories, c.name = n

theorem insertTaxRow_foundLinks_eq (db : Db) (table : TaxTable)
    (n : String) : (insertTaxRow db table n).foundLinks = db.foundLinks := by
  cases table <;> simp only [insertTaxRow] <;> split <;> rfl

theorem insertTaxRow_tags_mem (db : Db) (table : TaxTable) (n : String) :
    ∀ t ∈ db.tags, t ∈ (insertTaxRow db table n).tags := by
  intro t ht
  cases table <;> simp only [insertTaxRow] <;> split
  · exact ht
  · exact List.mem_append.mpr (Or.inl ht)
  · exact ht
  · exact ht

theorem insertTaxRow_cats_mem (db : Db) (table : TaxTable) (n : String) :
    ∀ c ∈ db.categories, c ∈ (insertTaxRow db table n).categories := by
  intro c hc
  cases table <;> simp only [insertTaxRow] <;> split
  · exact hc
  · exact hc
  · exact hc
  · exact List.mem_append.mpr (Or.inl hc)

theorem insertTaxRow_hasName (db : Db) (table : TaxTable) (n : String) :
    taxHasName (insertTaxRow db table n) table n := by
  cases table
  · unfold insertTaxRow
    by_cases h : (db.tags.any (fun t => t.name == n)) = true
    · rw [if_pos h]
      obtain ⟨t, ht, htn⟩ := List.any_eq_true.mp h
      exact ⟨t, ht, by simpa using htn⟩
    · rw [if_neg h]
      exact ⟨⟨db.nextId, n, none, ""⟩, by simp, rfl⟩
  · unfold insertTaxRow
    by_cases h : (db.categories.any (fun t => t.name == n)) = true
    · rw [if_pos h]
      obtain ⟨c, hc, hcn⟩ := List.any_eq_true.mp h
      exact ⟨c, hc, by simpa using hcn⟩
    · rw [if_neg h]
      exact ⟨⟨db.nextId, n, ""⟩, by simp, rfl⟩

theorem insertTaxRow_preserves_hasName (db : Db) (table t' : TaxTable)
    (n n' : String) (h : taxHasName db t' n') :
    taxHasName (insertTaxRow db table n) t' n' := by
  cases t'
  · obtain ⟨t, ht, htn⟩ := h
    exact ⟨t, insertTaxRow_tags_mem db table n t ht, htn⟩
  · obtain ⟨c, hc, hcn⟩ := h
    exact ⟨c, insertTaxRow_cats_mem db table n c hc, hcn⟩

theorem classifyStep_preserves_hasName (table t' : TaxTable)
    (marker : String) (n' : String) (db : Db) (link : FoundLink)
    (h : taxHasName db t' n') :
    taxHasName (classifyStep table marker db link) t' n' := by
  unfold classifyStep
  rcases hm : slugAfterMarker marker.toList link.href.toList with _ | slug
  · cases t' <;> exact h
  · exact insertTaxRow_preserves_hasName db table t' _ n' h

theorem classifyStep_tags_mem (table : TaxTable) (marker : String)
    (db : Db) (link : FoundLink) :
    ∀ t ∈ db.tags, t ∈ (classifyStep table marker db link).tags := by
  intro t ht
  unfold classifyStep
  rcases hm : slugAfterMarker marker.toList link.href.toList with _ | slug
  · exact ht
  · exact insertTaxRow_tags_mem db table _ t ht

theorem classifyStep_cats_mem (table : TaxTable) (marker : String)
    (db : Db) (link : FoundLink) :
    ∀ c ∈ db.categories, c ∈ (classifyStep table marker db link).categories := by
  intro c hc
  unfold classifyStep
  rcases hm : slugAfterMarker marker.toList link.href.toList with _ | slug
  · exact hc
  · exact insertTaxRow_cats_mem db table _ c hc

theorem classifyStep_preserves_err (table : TaxTable) (marker : String)
    (I : String) (db : Db) (link : FoundLink)
    (h : ∀ r ∈ db.foundLinks, r.id = I → r.status = CrawlStatus.Error) :
    ∀ r ∈ (classifyStep table marker db link).foundLinks, r.id = I →
      r.status = CrawlStatus.Error := by
  intro r hr hrid
  unfold classifyStep at hr
  rcases hm : slugAfterMarker marker.toList link.href.toList with _ | slug
  · rw [hm] at hr
    unfold setLinkError at hr
    simp only at hr
    obtain ⟨r0, hr0, hfr0⟩ := List.mem_map.mp hr
    by_cases hc : (r0.id == link.id) = true
    · rw [if_pos hc] at hfr0
      rw [← hfr0]
    · rw [if_neg (by simpa using hc)] at hfr0
      subst hfr0
      exact h r0 hr0 hrid
  · rw [hm, insertTaxRow_foundLinks_eq] at hr
    exact h r hr hrid

theorem classifyStep_sets_error (table : TaxTable) (marker : String)
    (L : FoundLink)
    (hm : slugAfterMarker marker.toList L.href.toList = none) (db : Db) :
    ∀ r ∈ (classifyStep table marker db L).foundLinks, r.id = L.id →
      r.status = CrawlStatus.Error := by
  intro r hr hid
  unfold classifyStep at hr
  rw [hm] at hr
  unfold setLinkError at hr
  simp only at hr
  obtain ⟨r0, hr0, hfr0⟩ := List.mem_map.mp hr
  by_cases hc : (r0.id == L.id) = true
  · rw [if_pos hc] at hfr0
    rw [← hfr0]
  · rw [if_neg (by simpa using hc)] at hfr0
    subst hfr0
    exact absurd hid (by simpa using hc)

theorem classifyStep_inserts_name (table : TaxTable) (marker : String)
    (L : FoundLink) (slug : List Char)
    (hm : slugAfterMarker marker.toList L.href.toList = some slug)
    (db : Db) :
    taxHasName (classifyStep table marker db L) table
      (prettyName slug.asString) := by
  unfold classifyStep
  rw [hm]
  exact insertTaxRow_hasName db table _

theorem foldl_classify_preserve {P : Db → Prop} (table : TaxTable)
    (marker : String)
    (hstep : ∀ db link, P db → P (classifyStep table marker db link)) :
    ∀ (links : List FoundLink) (db : Db),
      P db → P (links.foldl (classifyStep table marker) db) := by
  intro links
  induction links with
  | nil => intro db h; exact h
  | cons l ls ih => intro db h; exact ih _ (hstep db l h)

theorem foldl_classify_establish {P : Db → Prop} (table : TaxTable)
    (marker : String)
    (hstep : ∀ db link, P db → P (classifyStep table marker db link))
    (L : FoundLink) (hL : ∀ db, P (classifyStep table marker db L)) :
    ∀ (links : List FoundLink) (db : Db),
      L ∈ links → P (links.foldl (classifyStep table marker) db) := by
  intro links
  induction links with
  | nil => intro db h; exact absurd h (List.not_mem_nil L)
  | cons l ls ih =>
    intro db hmem
    rcases List.mem_cons.mp hmem with heq | htail
    · subst heq
      exact foldl_classify_preserve table marker hstep ls _ (hL db)
    · exact ih _ htail

theorem foldl_classify_keep (table : TaxTable) (marker : String)
    (L : FoundLink) :
    ∀ (links : List FoundLink) (db : Db),
      L ∈ db.foundLinks → (∀ l ∈ links, ¬ l.id = L.id) →
      L ∈ (links.foldl (classifyStep table marker) db).foundLinks := by
  intro links
  induction links with
  | nil => intro db h _; exact h
  | cons l ls ih =>
    intro db hmem hids
    refine ih _ ?_ (fun x hx => hids x (List.mem_cons.mpr (Or.inr hx)))
    unfold classifyStep
    rcases hm : slugAfterMarker marker.toList l.href.toList with _ | slug
    · unfold setLinkError
      simp only
      refine List.mem_map.mpr ⟨L, hmem, ?_⟩
      rw [if_neg]
      simp only [beq_iff_eq]
      intro hEq
      exact hids l (List.mem_cons.mpr (Or.inl rfl)) hEq.symm
    · rw [insertTaxRow_foundLinks_eq]
      exact hmem

/-- C8: for every Tag/Category-status link, a href that does not match
the corresponding slug pattern gets its status set to `Error`; a
matching href yields a row (inserted, or silently skipped on an
existing name) named by the dash-to-space title-cased slug; existing
taxonomy rows are never updated; and the slug `node-based-design`
yields the name "Node Based Design". -/
theorem classifier_c8 (db : Db)
    (hids : (db.foundLinks.map (fun r => r.id)).Nodup) :
    (∀ L ∈ db.foundLinks, L.status = CrawlStatus.Tag →
      slugAfterMarker "/tag/".toList L.href.toList = none →
      ∀ r ∈ (linkProcessEndpoint db).foundLinks, r.id = L.id →
        r.status = CrawlStatus.Error) ∧
    (∀ L ∈ db.foundLinks, L.status = CrawlStatus.Category →
      slugAfterMarker "/category/".toList L.href.toList = none →
      ∀ r ∈ (linkProcessEndpoint db).foundLinks, r.id = L.id →
        r.status = CrawlStatus.Error) ∧
    (∀ L ∈ db.foundLinks, L.status = CrawlStatus.Tag →
      ∀ slug, slugAfterMarker "/tag/".toList L.href.toList = some slug →
        ∃ t ∈ (linkProcessEndpoint db).tags,
          t.name = prettyName slug.asString) ∧
    (∀ L ∈ db.foundLinks, L.status = CrawlStatus.Category →
      ∀ slug, slugAfterMarker "/category/".toList L.href.toList = some slug →
        ∃ c ∈ (linkProcessEndpoint db).categories,
          c.name = prettyName slug.asString) ∧
    (∀ t ∈ db.tags, t ∈ (linkProcessEndpoint db).tags) ∧
    (∀ c ∈ db.categories, c ∈ (linkProcessEndpoint db).categories) ∧
    prettyName "node-based-design" = "Node Based Design" := by
  have hdb1 : classifyHandle db CrawlStatus.Tag TaxTable.tags "/tag/" =
      (db.foundLinks.filter (fun l => l.status == CrawlStatus.Tag)).foldl
        (classifyStep TaxTable.tags "/tag/") db := rfl
  have hend : linkProcessEndpoint db =
      ((classifyHandle db CrawlStatus.Tag TaxTable.tags "/tag/").foundLinks.filter
        (fun l => l.status == CrawlStatus.Category)).foldl
        (classifyStep TaxTable.categories "/category/")
        (classifyHandle db CrawlStatus.Tag TaxTable.tags "/tag/") := rfl
  have hkeepCat : ∀ L ∈ db.foundLinks, L.status = CrawlStatus.Category →
      L ∈ (classifyHandle db CrawlStatus.Tag TaxTable.tags "/tag/").foundLinks := by
    intro L hL hstat
    rw [hdb1]
    refine foldl_classify_keep TaxTable.tags "/tag/" L _ db hL ?_
    intro l hlf heq
    have hl := List.mem_filter.mp hlf
    have hlstat : l.status = CrawlStatus.Tag := by simpa using hl.2
    have : l = L := List.inj_on_of_nodup_map hids hl.1 hL heq
    subst this
    rw [hstat] at hlstat
    exact absurd hlstat (by decide)
  refine ⟨?_, ?_, ?_, ?_, ?_, ?_, by decide⟩
  · intro L hL hstat hm
    have hLf : L ∈ db.foundLinks.filter
        (fun l => l.status == CrawlStatus.Tag) :=
      List.mem_filter.mpr ⟨hL, by simp [hstat]⟩
    have h1 : ∀ r ∈ (classifyHandle db CrawlStatus.Tag
        TaxTable.tags "/tag/").foundLinks, r.id = L.id →
        r.status = CrawlStatus.Error := by
      rw [hdb1]
      exact foldl_classify_establish TaxTable.tags "/tag/"
        (fun db' link h => classifyStep_preserves_err TaxTable.tags "/tag/"
          L.id db' link h)
        L (fun db' => classifyStep_sets_error TaxTable.tags "/tag/" L hm db')
        _ db hLf
    rw [hend]
    exact foldl_classify_preserve TaxTable.categories "/category/"
      (fun db' link h => classifyStep_preserves_err TaxTable.categories
        "/category/" L.id db' link h) _ _ h1
  · intro L hL hstat hm
    have hmem1 := hkeepCat L hL hstat
    have hLf2 : L ∈ (classifyHandle db CrawlStatus.Tag
        TaxTable.tags "/tag/").foundLinks.filter
        (fun l => l.status == CrawlStatus.Category) :=
      List.mem_filter.mpr ⟨hmem1, by simp [hstat]⟩
    rw [hend]
    exact foldl_classify_establish TaxTable.categories "/category/"
      (fun db' link h => classifyStep_preserves_err TaxTable.categories
        "/category/" L.id db' link h)
      L (fun db' => classifyStep_sets_error TaxTable.categories "/category/"
        L hm db')
      _ _ hLf2
  · intro L hL hstat slug hm
    have hLf : L ∈ db.foundLinks.filter
        (fun l => l.status == CrawlStatus.Tag) :=
      List.mem_filter.mpr ⟨hL, by simp [hstat]⟩
    have h1 : taxHasName (classifyHandle db CrawlStatus.Tag
        TaxTable.tags "/tag/") TaxTable.tags (prettyName slug.asString) := by
      rw [hdb1]
      exact foldl_classify_establish TaxTable.tags "/tag/"
        (fun db' link h => classifyStep_preserves_hasName TaxTable.tags
          TaxTable.tags "/tag/" _ db' link h)
        L (fun db' => classifyStep_inserts_name TaxTable.tags "/tag/"
          L slug hm db')
        _ db hLf
    rw [hend]
    exact foldl_classify_preserve TaxTable.categories "/category/"
      (fun db' link h => classifyStep_preserves_hasName TaxTable.categories
        TaxTable.tags "/category/" _ db' link h) _ _ h1
  · intro L hL hstat slug hm
    have hmem1 := hkeepCat L hL hstat
    have hLf2 : L ∈ (classifyHandle db CrawlStatus.Tag
        TaxTable.tags "/tag/").foundLinks.filter
        (fun l => l.status == CrawlStatus.Category) :=
      List.mem_filter.mpr ⟨hmem1, by simp [hstat]⟩
    rw [hend]
    exact foldl_classify_establish TaxTable.categories "/category/"
      (fun db' link h => classifyStep_preserves_hasName TaxTable.categories
        TaxTable.categories "/category/" _ db' link h)
      L (fun db' => classifyStep_inserts_name TaxTable.categories
        "/category/" L slug hm db')
      _ _ hLf2
  · intro t ht
    rw [hend]
    refine foldl_classify_preserve TaxTable.categories "/category/"
      (fun db' link h => classifyStep_tags_mem TaxTable.categories
        "/category/" db' link t h) _ _ ?_
    rw [hdb1]
    exact foldl_classify_preserve TaxTable.tags "/tag/"
      (fun db' link h => classifyStep_tags_mem TaxTable.tags "/tag/"
        db' link t h) _ db ht
  · intro c hc
    rw [hend]
    refine foldl_classify_preserve TaxTable.categories "/category/"
      (fun db' link h => classifyStep_cats_mem TaxTable.categories
        "/category/" db' link c h) _ _ ?_
    rw [hdb1]
    exact foldl_classify_preserve TaxTable.tags "/tag/"
      (fun db' link h => classifyStep_cats_mem TaxTable.tags "/tag/"
        db' link c h) _ db hc

/-- A two-link state exercising both classifier branches. -/
def classifierState : Db :=
  { foundLinks :=
      [⟨"t1", "https://thealexandrian.net/tag/node-based-design",
        5, none, 0⟩,
       ⟨"t2", "https://thealexandrian.net/about", 5, none, 0⟩],
    articles := [], tags := [], categories := [], articleTags := [],
    articleCategories := [], comments := [], nextId := 1 }

/-- Witness for C8 on `classifierState`: the matching link yields a Tag
row named "Node Based Design" and the non-matching link ends in Error
status. -/
theorem classifier_c8_witness :
    prettyName "node-based-design" = "Node Based Design" ∧
    (∃ t ∈ (linkProcessEndpoint classifierState).tags,
      t.name = prettyName ("node-based-design".toList).asString) ∧
    (⟨"t2", "https://thealexandrian.net/about", CrawlStatus.Error,
      none, 0⟩ : FoundLink).status = CrawlStatus.Error :=
  ⟨(classifier_c8 classifierState (by decide)).2.2.2.2.2.2,
   (classifier_c8 classifierState (by decide)).2.2.1
     ⟨"t1", "https://thealexandrian.net/tag/node-based-design", 5, none, 0⟩
     (by decide) (by decide) "node-based-design".toList (by decide),
   (classifier_c8 classifierState (by decide)).1
     ⟨"t2", "https://thealexandrian.net/about", 5, none, 0⟩
     (by decide) (by decide) (by decide)
     ⟨"t2", "https://thealexandrian.net/about", CrawlStatus.Error, none, 0⟩
     (by decide) rfl⟩

/-! ## Ingestion: scraped data, oracles, storage operations -/

/-- A scraped comment (`RawComment`). -/
structure RawComment where
  oldId : Int
  author : String
  content : List String
  createdAt : String
deriving DecidableEq, Repr

/-- The scraped article fields consumed by the runners (`RawArticle`
without `comment_ids` / `related_ids`, which neither runner reads). -/
structure RawArticle where
  oldId : Int
  title : String
  link : String
  images : List String
  createdAt : String
  content : String
  categories : List String
  tags : List String
deriving DecidableEq, Repr

/-- `scrapeArticles` as an oracle: the structured result, or the thrown
error's message (transport failure or missing article container). -/
def Scrape : Type := String → Except String (RawArticle × List RawComment)

/-- One storage operation, identifying where an injectable persistence
failure may strike. -/
inductive DbOp where
  | insertArticle (link : String)
  | upsertCategory (name : String)
  | insertArticleCategory (name : String)
  | upsertTag (name : String)
  | insertArticleTag (name : String)
  | insertComments (link : String)
  | stampProcessed (linkId : String)
  | deleteArticleByLink (link : String)
deriving DecidableEq, Repr

/-- A persistence-failure oracle: `some msg` makes that operation fail
with the given storage error message. -/
def FailOracle : Type := DbOp → Option String

/-- The oracle under which every storage operation succeeds. -/
def noFail : FailOracle := fun _ => none

/-- Substring test on character lists (JS `String.prototype.includes`). -/
def containsSub (needle : List Char) : List Char → Bool
  | [] => needle.isPrefixOf []
  | c :: t => needle.isPrefixOf (c :: t) || containsSub needle t

/-- `hay.includes(needle)`. -/
def strContains (hay needle : String) : Bool :=
  containsSub needle.toList hay.toList

/-- JS `\s` for the whitespace characters appearing in tag names. -/
def isJsSpace (c : Char) : Bool :=
  c = ' ' || c = '\t' || c = '\n' || c = '\r'

/-- Collapse every maximal run of characters satisfying `bad` into a
single dash (JS `replace` with a `/X+/g` pattern). -/
def collapseRuns (bad : Char → Bool) : List Char → List Char
  | [] => []
  | c :: rest =>
    if bad c then '-' :: collapseRuns bad (rest.dropWhile bad)
    else c :: collapseRuns bad rest
termination_by l => l.length
decreasing_by
  · exact Nat.lt_succ_of_le (List.dropWhile_sublist bad).length_le
  · exact Nat.lt_succ_self rest.length

/-- Batch-runner tag slug: `tagName.toLowerCase().replace` of
whitespace runs by a dash. -/
def slugifyBatch (name : String) : String :=
  (collapseRuns isJsSpace (name.toList.map Char.toLower)).asString

/-- Lowercase ASCII letter or digit. -/
def isLowerAlnum (c : Char) : Bool :=
  ('a' ≤ c && c ≤ 'z') || c.isDigit

/-- Single-runner tag slug: `tagName.toLowerCase().replace` of
non-alphanumeric runs by a dash. -/
def slugifySingle (name : String) : String :=
  (collapseRuns (fun c => !(isLowerAlnum c))
    (name.toList.map Char.toLower)).asString

/-- `select('id').eq('link', href).single()` on `articles`. -/
def findArticleByLink (db : Db) (link : String) : Option ArticleRow :=
  db.articles.find? (fun a => a.link == link)

/-- Number of Article rows with the given link. -/
def countArticlesWithLink (db : Db) (h : String) : Nat :=
  (db.articles.filter (fun a => a.link == h)).length

/-- `insert` into `articles`: fails on an injected storage error or on
the unique constraints of `link` / `old_id`; otherwise the new row's
fresh id is returned. -/
def insertArticleOp (pf : FailOracle) (db : Db) (a : RawArticle)
    (link : String) : Except String (Db × Nat) :=
  match pf (DbOp.insertArticle link) with
  | some msg => Except.error msg
  | none =>
    if db.articles.any (fun r => r.link == link || r.oldId == a.oldId) then
      Except.error "duplicate key value violates articles unique constraint"
    else
      Except.ok ({ db with
        articles := db.articles ++
          [⟨db.nextId, a.oldId, a.title, a.content, link, a.images,
            a.createdAt⟩],
        nextId := db.nextId + 1 }, db.nextId)

/-- `upsert({name, description: ''}, {onConflict: 'name'})` into
`categories`: merge onto the existing name or insert a fresh row. -/
def upsertCategoryOp (pf : FailOracle) (db : Db) (name : String) :
    Except String (Db × Nat) :=
  match pf (DbOp.upsertCategory name) with
  | some msg => Except.error msg
  | none =>
    match db.categories.find? (fun c => c.name == name) with
    | some c =>
      Except.ok ({ db with categories := db.categories.map (fun c2 =>
        if c2.name == name then { c2 with description := "" } else c2) },
        c.id)
    | none =>
      Except.ok ({ db with
        categories := db.categories ++ [⟨db.nextId, name, ""⟩],
        nextId := db.nextId + 1 }, db.nextId)

/-- `insert` into `article_categories` (composite primary key). -/
def insertArticleCategoryOp (pf : FailOracle) (db : Db) (aid cid : Nat)
    (name : String) : Except String Db :=
  match pf (DbOp.insertArticleCategory name) with
  | some msg => Except.error msg
  | none =>
    if db.articleCategories.any
        (fun r => r.articleId == aid && r.categoryId == cid) then
      Except.error "duplicate key value violates article_categories pkey"
    else
      Except.ok { db with
        articleCategories := db.articleCategories ++ [⟨aid, cid⟩] }

/-- Batch-runner `upsert({name, description: '', slug}, {onConflict:
'name'})` into `tags`. -/
def upsertTagBatchOp (pf : FailOracle) (db : Db) (name : String) :
    Except String (Db × Nat) :=
  match pf (DbOp.upsertTag name) with
  | some msg => Except.error msg
  | none =>
    match db.tags.find? (fun t => t.name == name) with
    | some t =>
      Except.ok ({ db with tags := db.tags.map (fun t2 =>
        if t2.name == name then
          { t2 with description := "", slug := some (slugifyBatch name) }
        else t2) }, t.id)
    | none =>
      Except.ok ({ db with
        tags := db.tags ++ [⟨db.nextId, name, some (slugifyBatch name), ""⟩],
        nextId := db.nextId + 1 }, db.nextId)

/-- Single-runner `upsert({name, description, slug})` into `tags`. -/
def upsertTagSingleOp (pf : FailOracle) (db : Db) (name : String) :
    Except String (Db × Nat) :=
  match pf (DbOp.upsertTag name) with
  | some msg => Except.error msg
  | none =>
    match db.tags.find? (fun t => t.name == name) with
    | some t =>
      Except.ok ({ db with tags := db.tags.map (fun t2 =>
        if t2.name == name then
          { t2 with description := "Tag for " ++ name,
                    slug := some (slugifySingle name) }
        else t2) }, t.id)
    | none =>
      Except.ok ({ db with
        tags := db.tags ++
          [⟨db.nextId, name, some (slugifySingle name), "Tag for " ++ name⟩],
        nextId := db.nextId + 1 }, db.nextId)

/-- Batch-runner `insert` into `article_tags`. -/
def insertArticleTagOp (pf : FailOracle) (db : Db) (aid tid : Nat)
    (name : String) : Except String Db :=
  match pf (DbOp.insertArticleTag name) with
  | some msg => Except.error msg
  | none =>
    if db.articleTags.any
        (fun r => r.articleId == aid && r.tagId == tid) then
      Except.error "duplicate key value violates article_tags pkey"
    else
      Except.ok { db with articleTags := db.articleTags ++ [⟨aid, tid⟩] }

/-- Single-runner `upsert` into `article_tags` (conflict target is the
composite primary key, so an existing pair is a no-op). -/
def upsertArticleTagOp (pf : FailOracle) (db : Db) (aid tid : Nat)
    (name : String) : Except String Db :=
  match pf (DbOp.insertArticleTag name) with
  | some msg => Except.error msg
  | none =>
    if db.articleTags.any
        (fun r => r.articleId == aid && r.tagId == tid) then
      Except.ok db
    else
      Except.ok { db with articleTags := db.articleTags ++ [⟨aid, tid⟩] }

/-- Bulk `insert` of the scraped comments referencing the article. -/
def insertCommentsOp (pf : FailOracle) (db : Db) (aid : Nat)
    (comments : List RawComment) (link : String) : Except String Db :=
  match pf (DbOp.insertComments link) with
  | some msg => Except.error msg
  | none =>
    Except.ok { db with comments := db.comments ++
      (comments.map (fun c =>
        (⟨c.oldId, c.author, c.content, c.createdAt, aid⟩ : CommentRow))) }

/-- `update({processed_at}).eq('id', linkId)` on `found_links`. -/
def stampRow (db : Db) (linkId : String) (now : Nat) : Db :=
  { db with foundLinks := db.foundLinks.map (fun r =>
      if r.id == linkId then { r with processedAt := some now } else r) }

/-- The checked `processed_at` update. -/
def stampProcessedOp (pf : FailOracle) (db : Db) (linkId : String)
    (now : Nat) : Except String Db :=
  match pf (DbOp.stampProcessed linkId) with
  | some msg => Except.error msg
  | none => Except.ok (stampRow db linkId now)

/-- The unchecked `processed_at` update of the single runner's
existing-article branch (its error object is ignored). -/
def stampIgnoringError (pf : FailOracle) (db : Db) (linkId : String)
    (now : Nat) : Db :=
  match pf (DbOp.stampProcessed linkId) with
  | some _ => db
  | none => stampRow db linkId now

/-! ## The Batch Runner (`scrap.ts`) -/

/-- One per-link result entry of the batch response. -/
structure BatchResult where
  url : String
  success : Bool
  error : Option String
deriving DecidableEq, Repr

/-- The category loop of the batch runner: upsert-by-name then insert
the junction row, aborting on the first failure but keeping all writes
made so far. -/
def processCategoriesBatch (pf : FailOracle) (aid : Nat) (db : Db) :
    List String → Db × Option String
  | [] => (db, none)
  | name :: rest =>
    match upsertCategoryOp pf db name with
    | Except.error msg => (db, some msg)
    | Except.ok (db1, cid) =>
      match insertArticleCategoryOp pf db1 aid cid name with
      | Except.error msg => (db1, some msg)
      | Except.ok db2 => processCategoriesBatch pf aid db2 rest

/-- The tag loop of the batch runner. -/
def processTagsBatch (pf : FailOracle) (aid : Nat) (db : Db) :
    List String → Db × Option String
  | [] => (db, none)
  | name :: rest =>
    match upsertTagBatchOp pf db name with
    | Except.error msg => (db, some msg)
    | Except.ok (db1, tid) =>
      match insertArticleTagOp pf db1 aid tid name with
      | Except.error msg => (db1, some msg)
      | Except.ok db2 => processTagsBatch pf aid db2 rest

/-- One iteration of the batch loop: the whole per-link `try` block.
On any failure the error is recorded in the result entry and the
partial writes are kept (no rollback). -/
def processLinkBatch (scrape : Scrape) (pf : FailOracle) (now : Nat)
    (db : Db) (link : FoundLink) : Db × BatchResult :=
  if link.href = "" then
    (db, ⟨link.href, false, some "Link href is missing"⟩)
  else
    match scrape link.href with
    | Except.error msg => (db, ⟨link.href, false, some msg⟩)
    | Except.ok (article, comments) =>
      match insertArticleOp pf db article article.link with
      | Except.error msg => (db, ⟨link.href, false, some msg⟩)
      | Except.ok (db1, aid) =>
        match processCategoriesBatch pf aid db1 article.categories with
        | (db2, some msg) => (db2, ⟨link.href, false, some msg⟩)
        | (db2, none) =>
          match processTagsBatch pf aid db2 article.tags with
          | (db3, some msg) => (db3, ⟨link.href, false, some msg⟩)
          | (db3, none) =>
            match insertCommentsOp pf db3 aid comments link.href with
            | Except.error msg => (db3, ⟨link.href, false, some msg⟩)
            | Except.ok db4 =>
              match stampProcessedOp pf db4 link.id now with
              | Except.error msg => (db4, ⟨link.href, false, some msg⟩)
              | Except.ok db5 => (db5, ⟨link.href, true, none⟩)

/-- The `for (const link of links)` loop: every link is processed and
contributes exactly one result entry, in order. -/
def batchLoop (scrape : Scrape) (pf : FailOracle) (now : Nat) (db : Db) :
    List FoundLink → Db × List BatchResult
  | [] => (db, [])
  | link :: rest =>
    let r := processLinkBatch scrape pf now db link
    let rest2 := batchLoop scrape pf now r.1 rest
    (rest2.1, r.2 :: rest2.2)

/-- The batch runner's selection: Article status, null `processed_at`. -/
def selectBatchLinks (db : Db) : List FoundLink :=
  db.foundLinks.filter
    (fun l => l.processedAt.isNone && l.status == CrawlStatus.Article)

/-- The batch endpoint's response body. -/
structure BatchResponse where
  processed : Nat
  results : List BatchResult
deriving DecidableEq, Repr

/-- The batch endpoint (`scrap.ts`). -/
def scrapEndpoint (scrape : Scrape) (pf : FailOracle) (now : Nat)
    (db : Db) : Db × BatchResponse :=
  let links := selectBatchLinks db
  if links.isEmpty then (db, ⟨0, []⟩)
  else
    let r := batchLoop scrape pf now db links
    (r.1, ⟨r.2.length, r.2⟩)

/-! ## The Single-Link Runner (`process-links`) -/

/-- The reported outcome of one single-runner invocation: the three
`return` shapes plus a re-thrown error. -/
inductive SingleOutcome where
  | noLinks
  | invalidLink
  | alreadyExists (link : String)
  | success (link : String)
  | thrown (msg : String)
deriving DecidableEq, Repr

/-- Result of a single-runner invocation: the final store, the outcome,
and how many times `scrapeArticles` was called. -/
structure SingleRun where
  db : Db
  outcome : SingleOutcome
  scrapes : Nat
deriving DecidableEq, Repr

/-- `order('created_at', ascending).limit(1)` over the unprocessed
Article links: the earliest-created candidate (first in row order on
ties). -/
def selectOldest (links : List FoundLink) : Option FoundLink :=
  (links.filter
    (fun l => l.status == CrawlStatus.Article && l.processedAt.isNone)).foldl
    (fun best l =>
      match best with
      | none => some l
      | some b => if l.createdAt < b.createdAt then some l else some b)
    none

/-- The tag loop of the single runner: upsert tag, upsert junction. -/
def processTagsSingle (pf : FailOracle) (aid : Nat) (db : Db) :
    List String → Db × Option String
  | [] => (db, none)
  | name :: rest =>
    match upsertTagSingleOp pf db name with
    | Except.error msg => (db, some msg)
    | Except.ok (db1, tid) =>
      match upsertArticleTagOp pf db1 aid tid name with
      | Except.error msg => (db1, some msg)
      | Except.ok db2 => processTagsSingle pf aid db2 rest

/-- `delete().eq('link', href)` on `articles`. -/
def deleteArticleRows (db : Db) (link : String) : Db :=
  { db with articles := db.articles.filter (fun a => !(a.link == link)) }

/-- The rollback branch of the single runner: the compensating delete
runs only when the error message contains the substring `article.id`;
the delete's own error object is not checked. -/
def rollbackIfArticleId (pf : FailOracle) (db : Db) (link : String)
    (msg : String) : Db :=
  if strContains msg "article.id" then
    match pf (DbOp.deleteArticleByLink link) with
    | some _ => db
    | none => deleteArticleRows db link
  else db

/-- The single-link endpoint (`process-links`). -/
def processLinksEndpoint (scrape : Scrape) (pf : FailOracle) (now : Nat)
    (db : Db) : SingleRun :=
  match selectOldest db.foundLinks with
  | none => ⟨db, SingleOutcome.noLinks, 0⟩
  | some link =>
    if link.href = "" then ⟨db, SingleOutcome.invalidLink, 0⟩
    else
      match findArticleByLink db link.href with
      | some _ =>
        ⟨stampIgnoringError pf db link.id now,
         SingleOutcome.alreadyExists link.href, 0⟩
      | none =>
        match scrape link.href with
        | Except.error msg => ⟨db, SingleOutcome.thrown msg, 1⟩
        | Except.ok (article, _comments) =>
          match insertArticleOp pf db article link.href with
          | Except.error msg =>
            ⟨rollbackIfArticleId pf db link.href msg,
             SingleOutcome.thrown msg, 1⟩
          | Except.ok (db1, aid) =>
            match processTagsSingle pf aid db1 article.tags with
            | (db2, some msg) =>
              ⟨rollbackIfArticleId pf db2 link.href msg,
               SingleOutcome.thrown msg, 1⟩
            | (db2, none) =>
              match stampProcessedOp pf db2 link.id now with
              | Except.error msg =>
                ⟨rollbackIfArticleId pf db2 link.href msg,
                 SingleOutcome.thrown msg, 1⟩
              | Except.ok db3 => ⟨db3, SingleOutcome.success link.href, 1⟩

/-! ### C1: the rollback guard never fires for ordinary failures -/

/-- An Article link awaiting ingestion. -/
def singleFailDb : Db :=
  { foundLinks := [⟨"l1", "https://thealexandrian.net/wordpress/1/a",
      7, none, 0⟩],
    articles := [], tags := [], categories := [], articleTags := [],
    articleCategories := [], comments := [], nextId := 1 }

/-- A scrape oracle returning one article with one tag. -/
def singleFailScrape : Scrape := fun _ =>
  Except.ok (⟨1, "T", "https://thealexandrian.net/wordpress/1/a", [],
    "2019-06-03", "Body", [], ["Foo"]⟩, [])

/-- A persistence oracle failing the tag upsert with a storage error
message (which, like every supabase error message, does not contain the
substring `article.id`). -/
def tagFailOracle : FailOracle := fun op =>
  match op with
  | DbOp.upsertTag _ => some "duplicate key value violates tags name key"
  | _ => none

/-- C1 (refuting evidence): when the tag upsert fails after the Article
row was inserted, the single runner re-raises the failure but does NOT
delete the Article row: the compensating delete is guarded by
`message.includes('article.id')`, which the storage error does not
satisfy, so the orphaned row with the processed link's href remains.
The last conjunct shows the delete branch does run for a message that
does contain `article.id`. -/
theorem rollback_c1 :
    (processLinksEndpoint singleFailScrape tagFailOracle 3
        singleFailDb).outcome =
      SingleOutcome.thrown "duplicate key value violates tags name key" ∧
    countArticlesWithLink
      (processLinksEndpoint singleFailScrape tagFailOracle 3 singleFailDb).db
      "https://thealexandrian.net/wordpress/1/a" = 1 ∧
    strContains "duplicate key value violates tags name key" "article.id" =
      false ∧
    (rollbackIfArticleId noFail
      (processLinksEndpoint singleFailScrape tagFailOracle 3 singleFailDb).db
      "https://thealexandrian.net/wordpress/1/a"
      "error at article.id").articles = [] := by
  refine ⟨by decide, by decide, by decide, by decide⟩

/-! ### C3: stamping over a non-rolled-back batch leftover -/

/-- One Article link for the C3 scenario. -/
def c3Db : Db :=
  { foundLinks := [⟨"l2", "https://thealexandrian.net/wordpress/2/b",
      7, none, 0⟩],
    articles := [], tags := [], categories := [], articleTags := [],
    articleCategories := [], comments := [], nextId := 1 }

/-- A scrape oracle returning one article with one comment. -/
def c3Scrape : Scrape := fun _ =>
  Except.ok (⟨2, "T2", "https://thealexandrian.net/wordpress/2/b", [],
    "2019-06-03", "Body", [], []⟩,
    [⟨11, "Alice", ["hi"], "2019-06-04"⟩])

/-- A persistence oracle failing the bulk comments insert. -/
def commentsFailOracle : FailOracle := fun op =>
  match op with
  | DbOp.insertComments _ => some "comments violation"
  | _ => none

/-- The store after a batch run whose comments insert failed. -/
def c3AfterBatch : Db :=
  (scrapEndpoint c3Scrape commentsFailOracle 7 c3Db).1

/-- The store after a subsequent single-runner invocation. -/
def c3Final : Db :=
  (processLinksEndpoint c3Scrape noFail 9 c3AfterBatch).db

/-- Counterexample to C3: the batch run fails at the comments step and
(having no rollback) leaves the Article row with `processed_at` still
null; the following single-runner invocation finds the existing Article
row and stamps `processed_at`, although the link's comments were never
written — so `processed_at` is non-null without a full successful
ingestion. -/
theorem processed_at_c3_counterexample :
    (scrapEndpoint c3Scrape commentsFailOracle 7 c3Db).2.results =
      [⟨"https://thealexandrian.net/wordpress/2/b", false,
        some "comments violation"⟩] ∧
    c3AfterBatch.foundLinks =
      [⟨"l2", "https://thealexandrian.net/wordpress/2/b", 7, none, 0⟩] ∧
    countArticlesWithLink c3AfterBatch
      "https://thealexandrian.net/wordpress/2/b" = 1 ∧
    (processLinksEndpoint c3Scrape noFail 9 c3AfterBatch).outcome =
      SingleOutcome.alreadyExists
        "https://thealexandrian.net/wordpress/2/b" ∧
    c3Final.foundLinks =
      [⟨"l2", "https://thealexandrian.net/wordpress/2/b", 7, some 9, 0⟩] ∧
    c3Final.comments = [] ∧
    c3Scrape "https://thealexandrian.net/wordpress/2/b" =
      Except.ok (⟨2, "T2", "https://thealexandrian.net/wordpress/2/b", [],
        "2019-06-03", "Body", [], []⟩,
        [⟨11, "Alice", ["hi"], "2019-06-04"⟩]) := by
  refine ⟨by decide, by decide, by decide, by decide, by decide,
          by decide, rfl⟩

/-! ### C5: per-link isolation of failures in the batch runner -/

theorem processLinkBatch_shape (scrape : Scrape) (pf : FailOracle)
    (now : Nat) (db : Db) (link : FoundLink) :
    (processLinkBatch scrape pf now db link).2.url = link.href ∧
    ((processLinkBatch scrape pf now db link).2.success = false →
      (processLinkBatch scrape pf now db link).2.error.isSome = true) := by
  unfold processLinkBatch
  repeat' split
  all_goals first
    | exact ⟨rfl, fun _ => rfl⟩
    | exact ⟨rfl, fun h => absurd h (by simp)⟩

theorem batchLoop_length (scrape : Scrape) (pf : FailOracle) (now : Nat) :
    ∀ (links : List FoundLink) (db : Db),
      (batchLoop scrape pf now db links).2.length = links.length := by
  intro links
  induction links with
  | nil => intro db; rfl
  | cons l ls ih => intro db; simp [batchLoop, ih]

theorem batchLoop_getD (scrape : Scrape) (pf : FailOracle) (now : Nat) :
    ∀ (links : List FoundLink) (db : Db) (i : Nat),
      ((batchLoop scrape pf now db links).2.getD i ⟨"", true, none⟩).url =
        (links.getD i ⟨"", "", 0, none, 0⟩).href ∧
      (((batchLoop scrape pf now db links).2.getD i
          ⟨"", true, none⟩).success = false →
        ((batchLoop scrape pf now db links).2.getD i
          ⟨"", true, none⟩).error.isSome = true) := by
  intro links
  induction links with
  | nil =>
    intro db i
    exact ⟨rfl, fun h => by simp [batchLoop] at h⟩
  | cons l ls ih =>
    intro db i
    have hloop : (batchLoop scrape pf now db (l :: ls)).2 =
        (processLinkBatch scrape pf now db l).2 ::
          (batchLoop scrape pf now
            (processLinkBatch scrape pf now db l).1 ls).2 := rfl
    cases i with
    | zero =>
      rw [hloop]
      simpa using processLinkBatch_shape scrape pf now db l
    | succ j =>
      rw [hloop]
      simpa using ih (processLinkBatch scrape pf now db l).1 j

/-- C5: the batch runner returns one result entry per selected link, in
order; `processed` counts them; a failed link's entry carries its href
and an error message, and every subsequent link still gets its own
entry (the loop never aborts). -/
theorem scrap_c5 (scrape : Scrape) (pf : FailOracle) (now : Nat)
    (db : Db) :
    (scrapEndpoint scrape pf now db).2.results.length =
      (selectBatchLinks db).length ∧
    (scrapEndpoint scrape pf now db).2.processed =
      (scrapEndpoint scrape pf now db).2.results.length ∧
    (∀ i : Nat,
      ((scrapEndpoint scrape pf now db).2.results.getD i
        ⟨"", true, none⟩).url =
        ((selectBatchLinks db).getD i ⟨"", "", 0, none, 0⟩).href) ∧
    (∀ i : Nat,
      ((scrapEndpoint scrape pf now db).2.results.getD i
        ⟨"", true, none⟩).success = false →
      ((scrapEndpoint scrape pf now db).2.results.getD i
        ⟨"", true, none⟩).error.isSome = true) := by
  by_cases hempty : (selectBatchLinks db).isEmpty = true
  · have hnil : selectBatchLinks db = [] := List.isEmpty_iff.mp hempty
    have hend : scrapEndpoint scrape pf now db = (db, ⟨0, []⟩) := by
      unfold scrapEndpoint
      rw [if_pos hempty]
    rw [hend, hnil]
    exact ⟨rfl, rfl, fun i => rfl, fun i h => absurd h (by simp)⟩
  · have hend : scrapEndpoint scrape pf now db =
        ((batchLoop scrape pf now db (selectBatchLinks db)).1,
         ⟨(batchLoop scrape pf now db (selectBatchLinks db)).2.length,
          (batchLoop scrape pf now db (selectBatchLinks db)).2⟩) := by
      unfold scrapEndpoint
      rw [if_neg hempty]
    rw [hend]
    refine ⟨batchLoop_length scrape pf now _ db, rfl, ?_, ?_⟩
    · intro i
      exact (batchLoop_getD scrape pf now (selectBatchLinks db) db i).1
    · intro i
      exact (batchLoop_getD scrape pf now (selectBatchLinks db) db i).2

/-- Five pending Article links. -/
def batch5Db : Db :=
  { foundLinks :=
      [⟨"a1", "https://thealexandrian.net/wordpress/1/a", 7, none, 0⟩,
       ⟨"a2", "https://thealexandrian.net/wordpress/2/b", 7, none, 1⟩,
       ⟨"a3", "https://thealexandrian.net/wordpress/3/c", 7, none, 2⟩,
       ⟨"a4", "https://thealexandrian.net/wordpress/4/d", 7, none, 3⟩,
       ⟨"a5", "https://thealexandrian.net/wordpress/5/e", 7, none, 4⟩],
    articles := [], tags := [], categories := [], articleTags := [],
    articleCategories := [], comments := [], nextId := 1 }

/-- A minimal scraped article for a link. -/
def mkArticle (n : Int) (link : String) : RawArticle :=
  ⟨n, "T", link, [], "2019-06-03", "Body", [], []⟩

/-- A scrape oracle whose extraction throws for link number 3 only. -/
def batch5Scrape : Scrape := fun url =>
  if url = "https://thealexandrian.net/wordpress/3/c" then
    Except.error "Article container not found"
  else if url = "https://thealexandrian.net/wordpress/1/a" then
    Except.ok (mkArticle 1 url, [])
  else if url = "https://thealexandrian.net/wordpress/2/b" then
    Except.ok (mkArticle 2 url, [])
  else if url = "https://thealexandrian.net/wordpress/4/d" then
    Except.ok (mkArticle 4 url, [])
  else Except.ok (mkArticle 5 url, [])

/-- Witness for C5: over five pending links where link number 3's
extraction throws, the run yields four successes and one error entry
referencing link number 3's href; links 4 and 5 are still processed. -/
theorem scrap_c5_witness :
    ((scrapEndpoint batch5Scrape noFail 10 batch5Db).2.results.map
      (fun r => r.success)) = [true, true, false, true, true] ∧
    ((scrapEndpoint batch5Scrape noFail 10 batch5Db).2.results.getD 2
      ⟨"", true, none⟩).url = "https://thealexandrian.net/wordpress/3/c" ∧
    ((scrapEndpoint batch5Scrape noFail 10 batch5Db).2.results.getD 2
      ⟨"", true, none⟩).error.isSome = true :=
  ⟨by decide,
   ((scrap_c5 batch5Scrape noFail 10 batch5Db).2.2.1 2).trans (by decide),
   (scrap_c5 batch5Scrape noFail 10 batch5Db).2.2.2 2 (by decide)⟩

/-! ### C4: idempotency guard of the single runner -/

theorem count_congr {db' db : Db} (h : db'.articles = db.articles)
    (s : String) : countArticlesWithLink db' s = countArticlesWithLink db s := by
  unfold countArticlesWithLink
  rw [h]

theorem stampRow_articles (db : Db) (i : String) (now : Nat) :
    (stampRow db i now).articles = db.articles := rfl

theorem stampIgnoringError_articles (pf : FailOracle) (db : Db)
    (i : String) (now : Nat) :
    (stampIgnoringError pf db i now).articles = db.articles := by
  unfold stampIgnoringError
  rcases pf (DbOp.stampProcessed i) with _ | m
  · rfl
  · rfl

theorem upsertTagSingleOp_articles {pf : FailOracle} {db : Db}
    {name : String} {db1 : Db} {tid : Nat}
    (h : upsertTagSingleOp pf db name = Except.ok (db1, tid)) :
    db1.articles = db.articles := by
  unfold upsertTagSingleOp at h
  rcases hpf : pf (DbOp.upsertTag name) with _ | m
  · rw [hpf] at h
    rcases hf : db.tags.find? (fun t => t.name == name) with _ | t
    · rw [hf] at h
      simp only [Except.ok.injEq, Prod.mk.injEq] at h
      rw [← h.1]
    · rw [hf] at h
      simp only [Except.ok.injEq, Prod.mk.injEq] at h
      rw [← h.1]
  · rw [hpf] at h
    exact absurd h (by simp)

theorem upsertArticleTagOp_articles {pf : FailOracle} {db : Db}
    {aid tid : Nat} {name : String} {db2 : Db}
    (h : upsertArticleTagOp pf db aid tid name = Except.ok db2) :
    db2.articles = db.articles := by
  unfold upsertArticleTagOp at h
  rcases hpf : pf (DbOp.insertArticleTag name) with _ | m
  · rw [hpf] at h
    by_cases hc : (db.articleTags.any
        (fun r => r.articleId == aid && r.tagId == tid)) = true
    · rw [if_pos hc] at h
      injection h with h1
      rw [← h1]
    · rw [if_neg hc] at h
      injection h with h1
      rw [← h1]
  · rw [hpf] at h
    exact absurd h (by simp)

theorem processTagsSingle_articles (pf : FailOracle) (aid : Nat) :
    ∀ (names : List String) (db : Db),
      (processTagsSingle pf aid db names).1.articles = db.articles := by
  intro names
  induction names with
  | nil => intro db; rfl
  | cons name rest ih =>
    intro db
    unfold processTagsSingle
    rcases h1 : upsertTagSingleOp pf db name with msg | ⟨db1, tid⟩
    · simp only [h1]
    · simp only [h1]
      have e1 := upsertTagSingleOp_articles h1
      rcases h2 : upsertArticleTagOp pf db1 aid tid name with msg | db2
      · simp only [h2]
        exact e1
      · simp only [h2]
        rw [ih db2, upsertArticleTagOp_articles h2, e1]

theorem processTagsSingle_noFail (aid : Nat) :
    ∀ (names : List String) (db : Db),
      (processTagsSingle noFail aid db names).2 = none := by
  intro names
  induction names with
  | nil => intro db; rfl
  | cons name rest ih =>
    intro db
    unfold processTagsSingle
    rcases h1 : upsertTagSingleOp noFail db name with msg | ⟨db1, tid⟩
    · exfalso
      unfold upsertTagSingleOp at h1
      simp only [noFail] at h1
      rcases hf : db.tags.find? (fun t => t.name == name) with _ | t
      · rw [hf] at h1
        exact absurd h1 (by simp)
      · rw [hf] at h1
        exact absurd h1 (by simp)
    · simp only [h1]
      rcases h2 : upsertArticleTagOp noFail db1 aid tid name with msg | db2
      · exfalso
        unfold upsertArticleTagOp at h2
        simp only [noFail] at h2
        by_cases hc : (db1.articleTags.any
            (fun r => r.articleId == aid && r.tagId == tid)) = true
        · rw [if_pos hc] at h2
          exact absurd h2 (by simp)
        · rw [if_neg hc] at h2
          exact absurd h2 (by simp)
      · simp only [h2]
        exact ih db2

theorem filter_count_ne (arts : List ArticleRow) (h l : String)
    (hne : ¬ h = l) :
    ((arts.filter (fun a => !(a.link == l))).filter
      (fun a => a.link == h)).length =
    (arts.filter (fun a => a.link == h)).length := by
  induction arts with
  | nil => rfl
  | cons a t ih =>
    by_cases hal : a.link = l
    · have h1 : (!(a.link == l)) = false := by simp [hal]
      have h2 : (a.link == h) = false := by
        simp only [beq_eq_false_iff_ne, ne_eq]
        intro hc
        exact hne (hc.symm.trans hal)
      rw [List.filter_cons, h1, List.filter_cons, h2]
      simp only [Bool.false_eq_true, if_false]
      exact ih
    · have h1 : (!(a.link == l)) = true := by simp [hal]
      rw [List.filter_cons, h1, if_pos rfl, List.filter_cons,
        List.filter_cons]
      by_cases hah : (a.link == h) = true
      · rw [hah, if_pos rfl, if_pos rfl]
        simp only [List.length_cons]
        rw [ih]
      · have hah2 : (a.link == h) = false := by simpa using hah
        rw [hah2]
        simp only [Bool.false_eq_true, if_false]
        exact ih

theorem deleteArticleRows_count {db : Db} {l h : String}
    (hne : ¬ h = l) :
    countArticlesWithLink (deleteArticleRows db l) h =
      countArticlesWithLink db h := by
  unfold countArticlesWithLink deleteArticleRows
  exact filter_count_ne db.articles h l hne

theorem rollbackIfArticleId_count {pf : FailOracle} {db : Db}
    {l h : String} {msg : String} (hne : ¬ h = l) :
    countArticlesWithLink (rollbackIfArticleId pf db l msg) h =
      countArticlesWithLink db h := by
  unfold rollbackIfArticleId
  by_cases hc : strContains msg "article.id" = true
  · rw [if_pos hc]
    rcases hpf : pf (DbOp.deleteArticleByLink l) with _ | m
    · exact deleteArticleRows_count hne
    · rfl
  · rw [if_neg hc]

theorem insertArticleOp_ok {pf : FailOracle} {db : Db} {a : RawArticle}
    {link : String} {db1 : Db} {aid : Nat}
    (h : insertArticleOp pf db a link = Except.ok (db1, aid)) :
    db1.articles = db.articles ++
      [⟨db.nextId, a.oldId, a.title, a.content, link, a.images,
        a.createdAt⟩] ∧
    db1.foundLinks = db.foundLinks ∧
    db1.comments = db.comments ∧ aid = db.nextId := by
  unfold insertArticleOp at h
  rcases hpf : pf (DbOp.insertArticle link) with _ | m
  · rw [hpf] at h
    by_cases hc : (db.articles.any
        (fun r => r.link == link || r.oldId == a.oldId)) = true
    · rw [if_pos hc] at h
      exact absurd h (by simp)
    · rw [if_neg hc] at h
      simp only [Except.ok.injEq, Prod.mk.injEq] at h
      rw [← h.1, ← h.2]
      exact ⟨rfl, rfl, rfl, rfl⟩
  · rw [hpf] at h
    exact absurd h (by simp)

theorem count_append_row (arts : List ArticleRow) (row : ArticleRow)
    (h : String) :
    ((arts ++ [row]).filter (fun a => a.link == h)).length =
      (arts.filter (fun a => a.link == h)).length +
        (if row.link = h then 1 else 0) := by
  rw [List.filter_append]
  by_cases hr : row.link = h
  · simp [hr]
  · simp [hr]

theorem findArticleByLink_none_count {db : Db} {h : String}
    (hf : findArticleByLink db h = none) :
    countArticlesWithLink db h = 0 := by
  unfold findArticleByLink at hf
  unfold countArticlesWithLink
  have := List.find?_eq_none.mp hf
  rw [List.filter_eq_nil_iff.mpr (fun a ha => by simpa using this a ha)]
  rfl

theorem stampProcessedOp_ok {pf : FailOracle} {db : Db} {i : String}
    {now : Nat} {db3 : Db}
    (h : stampProcessedOp pf db i now = Except.ok db3) :
    db3 = stampRow db i now := by
  unfold stampProcessedOp at h
  rcases hpf : pf (DbOp.stampProcessed i) with _ | m
  · rw [hpf] at h
    injection h with h1
    exact h1.symm
  · rw [hpf] at h
    exact absurd h (by simp)

theorem single_preserves_count (scrape : Scrape) (pf : FailOracle)
    (now : Nat) (db : Db) (h : String)
    (hex : ∃ a ∈ db.articles, a.link = h) :
    countArticlesWithLink (processLinksEndpoint scrape pf now db).db h =
      countArticlesWithLink db h := by
  unfold processLinksEndpoint
  rcases hsel : selectOldest db.foundLinks with _ | L
  · simp only [hsel]
  · simp only [hsel]
    by_cases hhref : L.href = ""
    · rw [if_pos hhref]
    · rw [if_neg hhref]
      rcases hfind : findArticleByLink db L.href with _ | a
      · simp only [hfind]
        by_cases hLh : h = L.href
        · exfalso
          obtain ⟨a0, ha0m, ha0l⟩ := hex
          exact (List.find?_eq_none.mp hfind a0 ha0m)
            (by simp [ha0l, hLh.symm])
        · rcases hscr : scrape L.href with msg | p
          · simp only [hscr]
          · obtain ⟨art, cs⟩ := p
            simp only [hscr]
            rcases hins : insertArticleOp pf db art L.href with msg | q
            · simp only [hins]
              exact rollbackIfArticleId_count hLh
            · obtain ⟨db1, aid⟩ := q
              simp only [hins]
              obtain ⟨e1, _⟩ := insertArticleOp_ok hins
              have hc1 : countArticlesWithLink db1 h =
                  countArticlesWithLink db h := by
                unfold countArticlesWithLink
                rw [e1, count_append_row]
                rw [if_neg (fun hh => hLh hh.symm), Nat.add_zero]
              rcases htags : processTagsSingle pf aid db1 art.tags
                with ⟨db2, mo⟩
              have e2 : db2.articles = db1.articles := by
                have e := processTagsSingle_articles pf aid art.tags db1
                rw [htags] at e
                exact e
              cases mo with
              | some msg =>
                simp only [htags]
                rw [rollbackIfArticleId_count hLh, count_congr e2 h]
                exact hc1
              | none =>
                simp only [htags]
                rcases hstamp : stampProcessedOp pf db2 L.id now
                  with msg | db3
                · simp only [hstamp]
                  rw [rollbackIfArticleId_count hLh, count_congr e2 h]
                  exact hc1
                · simp only [hstamp]
                  have e3 : db3.articles = db2.articles := by
                    rw [stampProcessedOp_ok hstamp]
                    exact stampRow_articles db2 L.id now
                  rw [count_congr e3 h, count_congr e2 h]
                  exact hc1
      · simp only [hfind]
        exact count_congr (stampIgnoringError_articles pf db L.id now) h

/-- The Article row the single runner inserts for a fresh link. -/
def insertedRow (db : Db) (art : RawArticle) (href : String) : ArticleRow :=
  ⟨db.nextId, art.oldId, art.title, art.content, href, art.images,
   art.createdAt⟩

/-- The store after the single runner's article insert succeeds. -/
def insertedDb (db : Db) (art : RawArticle) (href : String) : Db :=
  { db with articles := db.articles ++ [insertedRow db art href],
            nextId := db.nextId + 1 }

/-- C4: when the selected Article link's href already matches the link
of an existing Article row, the single runner stamps `processed_at` and
returns without scraping and without touching the `articles` table; and
two consecutive invocations on a fresh link (all storage operations
succeeding) leave exactly one Article row with that link. -/
theorem single_c4 (scrape : Scrape) (pf : FailOracle) (now : Nat)
    (db : Db) (L : FoundLink)
    (hsel : selectOldest db.foundLinks = some L)
    (hhref : ¬ L.href = "") :
    ((∃ a ∈ db.articles, a.link = L.href) →
      processLinksEndpoint scrape pf now db =
        ⟨stampIgnoringError pf db L.id now,
         SingleOutcome.alreadyExists L.href, 0⟩ ∧
      (processLinksEndpoint scrape pf now db).db.articles = db.articles) ∧
    (∀ art cs, findArticleByLink db L.href = none →
      scrape L.href = Except.ok (art, cs) →
      db.articles.any (fun r => r.link == L.href || r.oldId == art.oldId)
        = false →
      countArticlesWithLink
        (processLinksEndpoint scrape noFail now
          (processLinksEndpoint scrape noFail now db).db).db L.href = 1) := by
  constructor
  · intro hex
    have hfex : ∃ a2, findArticleByLink db L.href = some a2 := by
      rcases hf : findArticleByLink db L.href with _ | a2
      · exfalso
        obtain ⟨a0, h0, h0l⟩ := hex
        exact (List.find?_eq_none.mp hf a0 h0) (by simp [h0l])
      · exact ⟨a2, rfl⟩
    obtain ⟨a2, hf⟩ := hfex
    have heq : processLinksEndpoint scrape pf now db =
        ⟨stampIgnoringError pf db L.id now,
         SingleOutcome.alreadyExists L.href, 0⟩ := by
      unfold processLinksEndpoint
      simp only [hsel]
      rw [if_neg hhref]
      simp only [hf]
    exact ⟨heq, by
      rw [heq]
      exact stampIgnoringError_articles pf db L.id now⟩
  · intro art cs hfind hscr hfresh
    have hins : insertArticleOp noFail db art L.href =
        Except.ok (insertedDb db art L.href, db.nextId) := by
      unfold insertArticleOp insertedDb insertedRow
      simp only [noFail]
      rw [if_neg (by simp [hfresh])]
    obtain ⟨db2, htags⟩ : ∃ db2, processTagsSingle noFail db.nextId
        (insertedDb db art L.href) art.tags = (db2, none) :=
      ⟨(processTagsSingle noFail db.nextId
          (insertedDb db art L.href) art.tags).1,
       by rw [← processTagsSingle_noFail db.nextId art.tags
         (insertedDb db art L.href)]⟩
    have hstamp : stampProcessedOp noFail db2 L.id now =
        Except.ok (stampRow db2 L.id now) := rfl
    have hrun1 : processLinksEndpoint scrape noFail now db =
        ⟨stampRow db2 L.id now, SingleOutcome.success L.href, 1⟩ := by
      unfold processLinksEndpoint
      simp only [hsel]
      rw [if_neg hhref]
      simp only [hfind, hscr, hins, htags, hstamp]
    have htparts : db2.articles = (insertedDb db art L.href).articles := by
      have e := processTagsSingle_articles noFail db.nextId art.tags
        (insertedDb db art L.href)
      rw [htags] at e
      exact e
    have hcount1 : countArticlesWithLink
        (processLinksEndpoint scrape noFail now db).db L.href = 1 := by
      rw [hrun1]
      have s1 := count_congr (stampRow_articles db2 L.id now) L.href
      rw [s1, count_congr htparts L.href]
      unfold countArticlesWithLink insertedDb
      simp only
      rw [count_append_row]
      have hrow : (insertedRow db art L.href).link = L.href := rfl
      rw [if_pos hrow]
      have h0 : countArticlesWithLink db L.href = 0 :=
        findArticleByLink_none_count hfind
      unfold countArticlesWithLink at h0
      rw [h0]
    have hex2 : ∃ a ∈ (processLinksEndpoint scrape noFail now db).db.articles,
        a.link = L.href := by
      rw [hrun1]
      refine ⟨insertedRow db art L.href, ?_, rfl⟩
      have e := stampRow_articles db2 L.id now
      rw [e, htparts]
      unfold insertedDb
      simp
    rw [single_preserves_count scrape noFail now _ L.href hex2]
    exact hcount1

/-- One fresh Article link for the C4 witness. -/
def c4Db : Db :=
  { foundLinks := [⟨"s1", "https://thealexandrian.net/wordpress/9/z",
      7, none, 0⟩],
    articles := [], tags := [], categories := [], articleTags := [],
    articleCategories := [], comments := [], nextId := 1 }

/-- The same link with its Article row already present. -/
def c4DbExisting : Db :=
  { foundLinks := [⟨"s1", "https://thealexandrian.net/wordpress/9/z",
      7, none, 0⟩],
    articles := [⟨1, 9, "T9", "B",
      "https://thealexandrian.net/wordpress/9/z", [], "2019-06-03"⟩],
    tags := [], categories := [], articleTags := [],
    articleCategories := [], comments := [], nextId := 2 }

/-- The scrape oracle for the C4 witness. -/
def c4Scrape : Scrape := fun _ =>
  Except.ok (⟨9, "T9", "https://thealexandrian.net/wordpress/9/z", [],
    "2019-06-03", "B", [], ["Rpg"]⟩, [])

/-- Witness for C4: two consecutive invocations on the fresh link leave
exactly one Article row, and on the existing-Article state the runner
stamps and returns the idempotency response. -/
theorem single_c4_witness :
    countArticlesWithLink
      (processLinksEndpoint c4Scrape noFail 5
        (processLinksEndpoint c4Scrape noFail 5 c4Db).db).db
      "https://thealexandrian.net/wordpress/9/z" = 1 ∧
    processLinksEndpoint c4Scrape noFail 5 c4DbExisting =
      ⟨stampIgnoringError noFail c4DbExisting "s1" 5,
       SingleOutcome.alreadyExists
         "https://thealexandrian.net/wordpress/9/z", 0⟩ :=
  ⟨(single_c4 c4Scrape noFail 5 c4Db
      ⟨"s1", "https://thealexandrian.net/wordpress/9/z", 7, none, 0⟩
      (by decide) (by decide)).2
      ⟨9, "T9", "https://thealexandrian.net/wordpress/9/z", [],
       "2019-06-03", "B", [], ["Rpg"]⟩ []
      (by decide) rfl (by decide),
   ((single_c4 c4Scrape noFail 5 c4DbExisting
      ⟨"s1", "https://thealexandrian.net/wordpress/9/z", 7, none, 0⟩
      (by decide) (by decide)).1
      ⟨⟨1, 9, "T9", "B", "https://thealexandrian.net/wordpress/9/z", [],
        "2019-06-03"⟩, by decide, rfl⟩).1⟩

/-! ### C3 (amended): stamping happens only on full success or on an
existing Article row -/

/-- The `articles`, `comments` and `found_links` tables agree. -/
def SameACF (db' db : Db) : Prop :=
  db'.articles = db.articles ∧ db'.comments = db.comments ∧
  db'.foundLinks = db.foundLinks

theorem SameACF.refl (db : Db) : SameACF db db :=
  ⟨Eq.refl _, Eq.refl _, Eq.refl _⟩

theorem SameACF.trans {a b c : Db} (h1 : SameACF a b) (h2 : SameACF b c) :
    SameACF a c :=
  ⟨h1.1.trans h2.1, h1.2.1.trans h2.2.1, h1.2.2.trans h2.2.2⟩

theorem upsertCategoryOp_same {pf : FailOracle} {db : Db} {name : String}
    {db1 : Db} {cid : Nat}
    (h : upsertCategoryOp pf db name = Except.ok (db1, cid)) :
    SameACF db1 db := by
  unfold upsertCategoryOp at h
  rcases hpf : pf (DbOp.upsertCategory name) with _ | m
  · rw [hpf] at h
    rcases hf : db.categories.find? (fun c => c.name == name) with _ | c
    · rw [hf] at h
      simp only [Except.ok.injEq, Prod.mk.injEq] at h
      rw [← h.1]
      exact SameACF.refl db
    · rw [hf] at h
      simp only [Except.ok.injEq, Prod.mk.injEq] at h
      rw [← h.1]
      exact SameACF.refl db
  · rw [hpf] at h
    exact absurd h (by simp)

theorem insertArticleCategoryOp_same {pf : FailOracle} {db : Db}
    {aid cid : Nat} {name : String} {db2 : Db}
    (h : insertArticleCategoryOp pf db aid cid name = Except.ok db2) :
    SameACF db2 db := by
  unfold insertArticleCategoryOp at h
  rcases hpf : pf (DbOp.insertArticleCategory name) with _ | m
  · rw [hpf] at h
    by_cases hc : (db.articleCategories.any
        (fun r => r.articleId == aid && r.categoryId == cid)) = true
    · rw [if_pos hc] at h
      exact absurd h (by simp)
    · rw [if_neg hc] at h
      injection h with h1
      rw [← h1]
      exact SameACF.refl db
  · rw [hpf] at h
    exact absurd h (by simp)

theorem upsertTagBatchOp_same {pf : FailOracle} {db : Db} {name : String}
    {db1 : Db} {tid : Nat}
    (h : upsertTagBatchOp pf db name = Except.ok (db1, tid)) :
    SameACF db1 db := by
  unfold upsertTagBatchOp at h
  rcases hpf : pf (DbOp.upsertTag name) with _ | m
  · rw [hpf] at h
    rcases hf : db.tags.find? (fun t => t.name == name) with _ | t
    · rw [hf] at h
      simp only [Except.ok.injEq, Prod.mk.injEq] at h
      rw [← h.1]
      exact SameACF.refl db
    · rw [hf] at h
      simp only [Except.ok.injEq, Prod.mk.injEq] at h
      rw [← h.1]
      exact SameACF.refl db
  · rw [hpf] at h
    exact absurd h (by simp)

theorem insertArticleTagOp_same {pf : FailOracle} {db : Db}
    {aid tid : Nat} {name : String} {db2 : Db}
    (h : insertArticleTagOp pf db aid tid name = Except.ok db2) :
    SameACF db2 db := by
  unfold insertArticleTagOp at h
  rcases hpf : pf (DbOp.insertArticleTag name) with _ | m
  · rw [hpf] at h
    by_cases hc : (db.articleTags.any
        (fun r => r.articleId == aid && r.tagId == tid)) = true
    · rw [if_pos hc] at h
      exact absurd h (by simp)
    · rw [if_neg hc] at h
      injection h with h1
      rw [← h1]
      exact SameACF.refl db
  · rw [hpf] at h
    exact absurd h (by simp)

theorem upsertArticleTagOp_same {pf : FailOracle} {db : Db}
    {aid tid : Nat} {name : String} {db2 : Db}
    (h : upsertArticleTagOp pf db aid tid name = Except.ok db2) :
    SameACF db2 db := by
  unfold upsertArticleTagOp at h
  rcases hpf : pf (DbOp.insertArticleTag name) with _ | m
  · rw [hpf] at h
    by_cases hc : (db.articleTags.any
        (fun r => r.articleId == aid && r.tagId == tid)) = true
    · rw [if_pos hc] at h
      injection h with h1
      rw [← h1]
      exact SameACF.refl db
    · rw [if_neg hc] at h
      injection h with h1
      rw [← h1]
      exact SameACF.refl db
  · rw [hpf] at h
    exact absurd h (by simp)

theorem upsertTagSingleOp_same {pf : FailOracle} {db : Db}
    {name : String} {db1 : Db} {tid : Nat}
    (h : upsertTagSingleOp pf db name = Except.ok (db1, tid)) :
    SameACF db1 db := by
  unfold upsertTagSingleOp at h
  rcases hpf : pf (DbOp.upsertTag name) with _ | m
  · rw [hpf] at h
    rcases hf : db.tags.find? (fun t => t.name == name) with _ | t
    · rw [hf] at h
      simp only [Except.ok.injEq, Prod.mk.injEq] at h
      rw [← h.1]
      exact SameACF.refl db
    · rw [hf] at h
      simp only [Except.ok.injEq, Prod.mk.injEq] at h
      rw [← h.1]
      exact SameACF.refl db
  · rw [hpf] at h
    exact absurd h (by simp)

theorem processCategoriesBatch_same (pf : FailOracle) (aid : Nat) :
    ∀ (names : List String) (db : Db),
      SameACF (processCategoriesBatch pf aid db names).1 db := by
  intro names
  induction names with
  | nil => intro db; exact SameACF.refl db
  | cons name rest ih =>
    intro db
    unfold processCategoriesBatch
    rcases h1 : upsertCategoryOp pf db name with msg | ⟨db1, cid⟩
    · simp only [h1]
      exact SameACF.refl db
    · simp only [h1]
      rcases h2 : insertArticleCategoryOp pf db1 aid cid name with msg | db2
      · simp only [h2]
        exact upsertCategoryOp_same h1
      · simp only [h2]
        exact ((ih db2).trans (insertArticleCategoryOp_same h2)).trans
          (upsertCategoryOp_same h1)

theorem processTagsBatch_same (pf : FailOracle) (aid : Nat) :
    ∀ (names : List String) (db : Db),
      SameACF (processTagsBatch pf aid db names).1 db := by
  intro names
  induction names with
  | nil => intro db; exact SameACF.refl db
  | cons name rest ih =>
    intro db
    unfold processTagsBatch
    rcases h1 : upsertTagBatchOp pf db name with msg | ⟨db1, tid⟩
    · simp only [h1]
      exact SameACF.refl db
    · simp only [h1]
      rcases h2 : insertArticleTagOp pf db1 aid tid name with msg | db2
      · simp only [h2]
        exact upsertTagBatchOp_same h1
      · simp only [h2]
        exact ((ih db2).trans (insertArticleTagOp_same h2)).trans
          (upsertTagBatchOp_same h1)

theorem processTagsSingle_same (pf : FailOracle) (aid : Nat) :
    ∀ (names : List String) (db : Db),
      SameACF (processTagsSingle pf aid db names).1 db := by
  intro names
  induction names with
  | nil => intro db; exact SameACF.refl db
  | cons name rest ih =>
    intro db
    unfold processTagsSingle
    rcases h1 : upsertTagSingleOp pf db name with msg | ⟨db1, tid⟩
    · simp only [h1]
      exact SameACF.refl db
    · simp only [h1]
      rcases h2 : upsertArticleTagOp pf db1 aid tid name with msg | db2
      · simp only [h2]
        exact upsertTagSingleOp_same h1
      · simp only [h2]
        exact ((ih db2).trans (upsertArticleTagOp_same h2)).trans
          (upsertTagSingleOp_same h1)

theorem insertCommentsOp_ok {pf : FailOracle} {db : Db} {aid : Nat}
    {comments : List RawComment} {link : String} {db4 : Db}
    (h : insertCommentsOp pf db aid comments link = Except.ok db4) :
    db4.articles = db.articles ∧ db4.foundLinks = db.foundLinks ∧
    db4.comments = db.comments ++
      (comments.map (fun c =>
        (⟨c.oldId, c.author, c.content, c.createdAt, aid⟩ : CommentRow))) := by
  unfold insertCommentsOp at h
  rcases hpf : pf (DbOp.insertComments link) with _ | m
  · rw [hpf] at h
    injection h with h1
    rw [← h1]
    exact ⟨rfl, rfl, rfl⟩
  · rw [hpf] at h
    exact absurd h (by simp)

theorem rollbackIfArticleId_same {pf : FailOracle} {db : Db}
    {l msg : String} :
    (rollbackIfArticleId pf db l msg).comments = db.comments ∧
    (rollbackIfArticleId pf db l msg).foundLinks = db.foundLinks := by
  unfold rollbackIfArticleId
  by_cases hc : strContains msg "article.id" = true
  · rw [if_pos hc]
    rcases hpf : pf (DbOp.deleteArticleByLink l) with _ | m
    · exact ⟨rfl, rfl⟩
    · exact ⟨rfl, rfl⟩
  · rw [if_neg hc]
    exact ⟨rfl, rfl⟩

theorem batch_full_success {scrape : Scrape} {pf : FailOracle} {now : Nat}
    (db : Db) (link : FoundLink)
    (h : (processLinkBatch scrape pf now db link).2.success = true) :
    ∃ art cs aid, scrape link.href = Except.ok (art, cs) ∧
      (⟨aid, art.oldId, art.title, art.content, art.link, art.images,
        art.createdAt⟩ : ArticleRow) ∈
        (processLinkBatch scrape pf now db link).1.articles ∧
      ∀ c ∈ cs,
        (⟨c.oldId, c.author, c.content, c.createdAt, aid⟩ : CommentRow) ∈
          (processLinkBatch scrape pf now db link).1.comments := by
  unfold processLinkBatch at h ⊢
  by_cases h0 : link.href = ""
  · rw [if_pos h0] at h
    exact absurd h (by simp)
  rw [if_neg h0] at h ⊢
  rcases hscr : scrape link.href with msg | p
  · rw [hscr] at h
    exact absurd h (by simp)
  obtain ⟨art, cs⟩ := p
  simp only [hscr] at h ⊢
  rcases hins : insertArticleOp pf db art art.link with msg | q
  · rw [hins] at h
    exact absurd h (by simp)
  obtain ⟨db1, aid⟩ := q
  simp only [hins] at h ⊢
  obtain ⟨e1, ef1, ec1, eaid⟩ := insertArticleOp_ok hins
  rcases hcats : processCategoriesBatch pf aid db1 art.categories
    with ⟨db2, mo⟩
  have hs2 : SameACF db2 db1 := by
    have hsame := processCategoriesBatch_same pf aid art.categories db1
    rw [hcats] at hsame
    exact hsame
  cases mo with
  | some m =>
    simp only [hcats] at h
    exact absurd h (by simp)
  | none =>
    simp only [hcats] at h ⊢
    rcases htags : processTagsBatch pf aid db2 art.tags with ⟨db3, mo2⟩
    have hs3 : SameACF db3 db2 := by
      have hsame := processTagsBatch_same pf aid art.tags db2
      rw [htags] at hsame
      exact hsame
    cases mo2 with
    | some m =>
      simp only [htags] at h
      exact absurd h (by simp)
    | none =>
      simp only [htags] at h ⊢
      rcases hcom : insertCommentsOp pf db3 aid cs link.href with msg | db4
      · rw [hcom] at h
        exact absurd h (by simp)
      simp only [hcom] at h ⊢
      obtain ⟨ea4, ef4, ec4⟩ := insertCommentsOp_ok hcom
      rcases hst : stampProcessedOp pf db4 link.id now with msg | db5
      · rw [hst] at h
        exact absurd h (by simp)
      simp only [hst] at h ⊢
      have hdb5 := stampProcessedOp_ok hst
      refine ⟨art, cs, aid, rfl, ?_, ?_⟩
      · have : db5.articles = db1.articles := by
          rw [hdb5]
          show (stampRow db4 link.id now).articles = db1.articles
          rw [stampRow_articles, ea4, hs3.1, hs2.1]
        rw [this, e1, eaid]
        exact List.mem_append.mpr (Or.inr (by simp))
      · intro c hc
        have : db5.comments = db3.comments ++
            (cs.map (fun c =>
              (⟨c.oldId, c.author, c.content, c.createdAt, aid⟩ :
                CommentRow))) := by
          rw [hdb5]
          show (stampRow db4 link.id now).comments = _
          have : (stampRow db4 link.id now).comments = db4.comments := rfl
          rw [this, ec4]
        rw [this]
        exact List.mem_append.mpr (Or.inr (List.mem_map.mpr ⟨c, hc, rfl⟩))

theorem batch_no_stamp_on_failure {scrape : Scrape} {pf : FailOracle}
    {now : Nat} (db : Db) (link : FoundLink)
    (h : (processLinkBatch scrape pf now db link).2.success = false) :
    (processLinkBatch scrape pf now db link).1.foundLinks =
      db.foundLinks := by
  unfold processLinkBatch
  by_cases h0 : link.href = ""
  · rw [if_pos h0]
  rw [if_neg h0]
  rcases hscr : scrape link.href with msg | p
  · rfl
  obtain ⟨art, cs⟩ := p
  simp only
  rcases hins : insertArticleOp pf db art art.link with msg | q
  · rfl
  obtain ⟨db1, aid⟩ := q
  simp only
  obtain ⟨e1, ef1, ec1, eaid⟩ := insertArticleOp_ok hins
  rcases hcats : processCategoriesBatch pf aid db1 art.categories
    with ⟨db2, mo⟩
  have hs2 : SameACF db2 db1 := by
    have hsame := processCategoriesBatch_same pf aid art.categories db1
    rw [hcats] at hsame
    exact hsame
  cases mo with
  | some m => exact hs2.2.2.trans ef1
  | none =>
    simp only
    rcases htags : processTagsBatch pf aid db2 art.tags with ⟨db3, mo2⟩
    have hs3 : SameACF db3 db2 := by
      have hsame := processTagsBatch_same pf aid art.tags db2
      rw [htags] at hsame
      exact hsame
    cases mo2 with
    | some m => exact (hs3.2.2.trans hs2.2.2).trans ef1
    | none =>
      simp only
      rcases hcom : insertCommentsOp pf db3 aid cs link.href with msg | db4
      · exact (hs3.2.2.trans hs2.2.2).trans ef1
      obtain ⟨ea4, ef4, ec4⟩ := insertCommentsOp_ok hcom
      simp only
      rcases hst : stampProcessedOp pf db4 link.id now with msg | db5
      · exact ((ef4.trans (hs3.2.2.trans hs2.2.2)).trans ef1)
      · exfalso
        unfold processLinkBatch at h
        rw [if_neg h0] at h
        simp only [hscr, hins, hcats, htags, hcom, hst] at h
        exact absurd h (by decide)

theorem single_alreadyExists_has_row {scrape : Scrape} {pf : FailOracle}
    {now : Nat} (db : Db) (href : String)
    (hout : (processLinksEndpoint scrape pf now db).outcome =
      SingleOutcome.alreadyExists href) :
    ∃ a ∈ db.articles, a.link = href := by
  unfold processLinksEndpoint at hout
  rcases hsel : selectOldest db.foundLinks with _ | L
  · simp only [hsel] at hout
    exact absurd hout (by simp)
  simp only [hsel] at hout
  by_cases hhref : L.href = ""
  · rw [if_pos hhref] at hout
    exact absurd hout (by simp)
  rw [if_neg hhref] at hout
  rcases hfind : findArticleByLink db L.href with _ | a
  · simp only [hfind] at hout
    rcases hscr : scrape L.href with msg | p
    · simp only [hscr] at hout
      exact absurd hout (by simp)
    obtain ⟨art, cs⟩ := p
    simp only [hscr] at hout
    rcases hins : insertArticleOp pf db art L.href with msg | q
    · simp only [hins] at hout
      exact absurd hout (by simp)
    obtain ⟨db1, aid⟩ := q
    simp only [hins] at hout
    rcases htags : processTagsSingle pf aid db1 art.tags with ⟨db2, mo⟩
    cases mo with
    | some m =>
      simp only [htags] at hout
      exact absurd hout (by simp)
    | none =>
      simp only [htags] at hout
      rcases hst : stampProcessedOp pf db2 L.id now with m | db3
      · simp only [hst] at hout
        exact absurd hout (by simp)
      · simp only [hst] at hout
        exact absurd hout (by simp)
  · simp only [hfind] at hout
    injection hout with hh
    refine ⟨a, List.mem_of_find?_eq_some hfind, ?_⟩
    have hp := List.find?_some hfind
    rw [← hh]
    simpa using hp

theorem single_success_has_row {scrape : Scrape} {pf : FailOracle}
    {now : Nat} (db : Db) (href : String)
    (hout : (processLinksEndpoint scrape pf now db).outcome =
      SingleOutcome.success href) :
    ∃ a ∈ (processLinksEndpoint scrape pf now db).db.articles,
      a.link = href := by
  unfold processLinksEndpoint at hout ⊢
  rcases hsel : selectOldest db.foundLinks with _ | L
  · simp only [hsel] at hout
    exact absurd hout (by simp)
  simp only [hsel] at hout ⊢
  by_cases hhref : L.href = ""
  · rw [if_pos hhref] at hout
    exact absurd hout (by simp)
  rw [if_neg hhref] at hout ⊢
  rcases hfind : findArticleByLink db L.href with _ | a
  · simp only [hfind] at hout ⊢
    rcases hscr : scrape L.href with msg | p
    · simp only [hscr] at hout
      exact absurd hout (by simp)
    obtain ⟨art, cs⟩ := p
    simp only [hscr] at hout ⊢
    rcases hins : insertArticleOp pf db art L.href with msg | q
    · simp only [hins] at hout
      exact absurd hout (by simp)
    obtain ⟨db1, aid⟩ := q
    simp only [hins] at hout ⊢
    obtain ⟨e1, ef1, ec1, eaid⟩ := insertArticleOp_ok hins
    rcases htags : processTagsSingle pf aid db1 art.tags with ⟨db2, mo⟩
    have hs2 : SameACF db2 db1 := by
      have hsame := processTagsSingle_same pf aid art.tags db1
      rw [htags] at hsame
      exact hsame
    cases mo with
    | some m =>
      simp only [htags] at hout
      exact absurd hout (by simp)
    | none =>
      simp only [htags] at hout ⊢
      rcases hst : stampProcessedOp pf db2 L.id now with m | db3
      · simp only [hst] at hout
        exact absurd hout (by simp)
      · simp only [hst] at hout ⊢
        injection hout with hh
        refine ⟨⟨db.nextId, art.oldId, art.title, art.content, L.href,
          art.images, art.createdAt⟩, ?_, hh⟩
        have e3 : db3.articles = db1.articles := by
          rw [stampProcessedOp_ok hst]
          show (stampRow db2 L.id now).articles = db1.articles
          rw [stampRow_articles, hs2.1]
        rw [e3, e1]
        exact List.mem_append.mpr (Or.inr (by simp))
  · simp only [hfind] at hout
    exact absurd hout (by simp)

theorem single_thrown_no_stamp {scrape : Scrape} {pf : FailOracle}
    {now : Nat} (db : Db) (msg : String)
    (hout : (processLinksEndpoint scrape pf now db).outcome =
      SingleOutcome.thrown msg) :
    (processLinksEndpoint scrape pf now db).db.foundLinks =
      db.foundLinks := by
  unfold processLinksEndpoint at hout ⊢
  rcases hsel : selectOldest db.foundLinks with _ | L
  · simp only [hsel]
  simp only [hsel] at hout ⊢
  by_cases hhref : L.href = ""
  · rw [if_pos hhref]
  rw [if_neg hhref] at hout ⊢
  rcases hfind : findArticleByLink db L.href with _ | a
  · simp only [hfind] at hout ⊢
    rcases hscr : scrape L.href with msg2 | p
    · simp only [hscr]
    obtain ⟨art, cs⟩ := p
    simp only [hscr] at hout ⊢
    rcases hins : insertArticleOp pf db art L.href with msg2 | q
    · simp only [hins]
      exact rollbackIfArticleId_same.2
    obtain ⟨db1, aid⟩ := q
    simp only [hins] at hout ⊢
    obtain ⟨e1, ef1, ec1, eaid⟩ := insertArticleOp_ok hins
    rcases htags : processTagsSingle pf aid db1 art.tags with ⟨db2, mo⟩
    have hs2 : SameACF db2 db1 := by
      have hsame := processTagsSingle_same pf aid art.tags db1
      rw [htags] at hsame
      exact hsame
    cases mo with
    | some m =>
      simp only [htags]
      exact (rollbackIfArticleId_same.2.trans hs2.2.2).trans ef1
    | none =>
      simp only [htags] at hout ⊢
      rcases hst : stampProcessedOp pf db2 L.id now with m | db3
      · simp only [hst]
        exact (rollbackIfArticleId_same.2.trans hs2.2.2).trans ef1
      · simp only [hst] at hout
        exact absurd hout (by simp)
  · simp only [hfind] at hout
    exact absurd hout (by simp)

/-- C3 (amended): `processed_at` can be stamped only when the stamping
run fully succeeded, or by the Single-Link Runner's idempotency branch
upon finding an Article row with the link's href already in storage —
a row possibly left by a failed, non-rolled-back Batch run whose
junctions and comments were never written.  Concretely: a batch
iteration whose result is success has written the article row and all
its comment rows; a batch iteration that failed leaves `found_links`
untouched; a single run reporting `alreadyExists` had a matching
Article row in the pre-state; a single run reporting success wrote the
article row; a single run that threw leaves `found_links` untouched. -/
theorem processed_at_c3_amended (scrape : Scrape) (pf : FailOracle)
    (now : Nat) :
    (∀ (db : Db) (link : FoundLink),
      ((processLinkBatch scrape pf now db link).2.success = true →
        ∃ art cs aid, scrape link.href = Except.ok (art, cs) ∧
          (⟨aid, art.oldId, art.title, art.content, art.link, art.images,
            art.createdAt⟩ : ArticleRow) ∈
            (processLinkBatch scrape pf now db link).1.articles ∧
          ∀ c ∈ cs,
            (⟨c.oldId, c.author, c.content, c.createdAt, aid⟩ :
              CommentRow) ∈
              (processLinkBatch scrape pf now db link).1.comments) ∧
      ((processLinkBatch scrape pf now db link).2.success = false →
        (processLinkBatch scrape pf now db link).1.foundLinks =
          db.foundLinks)) ∧
    (∀ (db : Db) (href : String),
      (processLinksEndpoint scrape pf now db).outcome =
        SingleOutcome.alreadyExists href →
      ∃ a ∈ db.articles, a.link = href) ∧
    (∀ (db : Db) (href : String),
      (processLinksEndpoint scrape pf now db).outcome =
        SingleOutcome.success href →
      ∃ a ∈ (processLinksEndpoint scrape pf now db).db.articles,
        a.link = href) ∧
    (∀ (db : Db) (msg : String),
      (processLinksEndpoint scrape pf now db).outcome =
        SingleOutcome.thrown msg →
      (processLinksEndpoint scrape pf now db).db.foundLinks =
        db.foundLinks) :=
  ⟨fun db link => ⟨batch_full_success db link, batch_no_stamp_on_failure db link⟩,
   fun db href => single_alreadyExists_has_row db href,
   fun db href => single_success_has_row db href,
   fun db msg => single_thrown_no_stamp db msg⟩

/-- Witness for the amended C3: at the concrete C3 scenario the single
run reports `alreadyExists`, and applying the theorem yields the
pre-existing Article row left by the failed batch run. -/
theorem processed_at_c3_amended_witness :
    ∃ a ∈ c3AfterBatch.articles,
      a.link = "https://thealexandrian.net/wordpress/2/b" :=
  (processed_at_c3_amended c3Scrape noFail 9).2.1 c3AfterBatch
    "https://thealexandrian.net/wordpress/2/b" (by decide)
